import Mathlib

/-!
Verification development for the `enrich_trains.py` enrichment pipeline
(CLIP-based visual tagging and similarity for a digitized-archive catalog).

The Python source is shallowly embedded:
* JSON manifest documents become the inductive `PyVal`; the Python
  operations used by the resolver (`.get`, `[0]`, truthiness) are modelled
  with their exception behaviour made explicit in `Except PyErr`.
* Network and model collaborators are oracles: a `World` maps URLs to
  optional responses, and a `CLIP` record supplies the (unit-normalized)
  image/text features and the `logit_scale.exp()` factor.  The
  floating-point exponential inside `softmax` is abstracted as a parameter
  `e : ℚ → ℚ`; every theorem needing its properties assumes only
  positivity, which holds for the real exponential.
* The filesystem caches (one manifest document per sanitized URI suffix,
  one embedding per item id) become two finite maps inside `Cache`, and
  the counters in `Counts` record how many network requests are issued.
-/

/-- A parsed JSON value, as produced by `requests.Response.json()`.
`null` stands for Python `None`. -/
inductive PyVal where
  | str (s : String)
  | num (q : ℚ)
  | bool (b : Bool)
  | null
  | list (xs : List PyVal)
  | dict (xs : List (String × PyVal))

/-- The Python exceptions that the resolver's access patterns can raise. -/
inductive PyErr where
  | attributeError
  | indexError
  | keyError
  | typeError
deriving DecidableEq

/-- Python truthiness (`if v:`) for the modelled values. -/
def PyVal.truthy : PyVal → Bool
  | .str s => !s.isEmpty
  | .num q => decide (q ≠ 0)
  | .bool b => b
  | .null => false
  | .list xs => !xs.isEmpty
  | .dict xs => !xs.isEmpty

/-- Python `v.get(key, dflt)`: only dicts have `.get`; anything else raises
`AttributeError` (which the resolver's `except` clause does not catch). -/
def pyGet (v : PyVal) (key : String) (dflt : PyVal) : Except PyErr PyVal :=
  match v with
  | .dict xs => .ok ((List.lookup key xs).getD dflt)
  | _ => .error .attributeError

/-- Python `v[0]`: lists index (empty list raises `IndexError`), strings
yield their first character as a string, dicts look up the key `0`
(raising `KeyError` since all modelled keys are strings), and everything
else is unsubscriptable (`TypeError`). -/
def pyIndex0 (v : PyVal) : Except PyErr PyVal :=
  match v with
  | .list [] => .error .indexError
  | .list (x :: _) => .ok x
  | .str s => if s.isEmpty then .error .indexError else .ok (.str (s.take 1))
  | .dict _ => .error .keyError
  | _ => .error .typeError

/-- Rendering used by the f-string `f"{svc_id}/full/800,/0/default.jpg"`.
Faithful for strings (the only shape occurring in real manifests); the
composite cases use a plain placeholder rather than Python's full `repr`,
which no claim exercises. -/
def pyStrOf : PyVal → String
  | .str s => s
  | .num q => toString q
  | .bool b => cond b "True" "False"
  | .null => "None"
  | .list _ => "<list>"
  | .dict _ => "<dict>"

/-- The `\w` character class of the source's regexes (word characters). -/
def isWordChar (c : Char) : Bool := c.isAlphanum || c = '_'

/-- The `[\s_]` class collapsed to a hyphen by `slugify`. -/
def isSep (c : Char) : Bool := c.isWhitespace || c = '_'

/-- Python `str.strip()`: remove leading and trailing whitespace. -/
def pyStrip (l : List Char) : List Char :=
  ((l.dropWhile Char.isWhitespace).reverse.dropWhile Char.isWhitespace).reverse

/-- One pass of `re.sub(r"[\s_]+", "-", ·)`: each maximal run of
whitespace/underscore characters becomes a single hyphen (the hyphen is
emitted at the end of the run). -/
def collapseSeps : List Char → List Char
  | [] => []
  | [c] => if isSep c then ['-'] else [c]
  | c :: d :: rest =>
    if isSep c then
      if isSep d then collapseSeps (d :: rest)
      else '-' :: collapseSeps (d :: rest)
    else c :: collapseSeps (d :: rest)

/-- `slugify` from the source: lowercase, drop characters outside
`[\w\s-]`, strip, collapse `[\s_]+` runs to `-`, truncate to 80. -/
def slugify (text : String) : String :=
  let s1 := text.toList.map Char.toLower
  let s2 := s1.filter (fun c => isWordChar c || c.isWhitespace || c = '-')
  let s3 := collapseSeps (pyStrip s2)
  String.mk (s3.take 80)

/-- Python `s[-n:]`: the last `n` characters (the whole string if shorter). -/
def lastN (n : ℕ) (s : String) : String :=
  let cs := s.toList
  String.mk (cs.drop (cs.length - n))

/-- The manifest-cache key used by `fetch_manifest`:
`slugify(url[-60:])`. -/
def mkey (url : String) : String := slugify (lastN 60 url)

/-- The body of `extract_image_url`'s `try` block (lines 104–116 of the
source): the primary IIIF path through
`sequences[0] → canvases[0] → images[0] → resource`, returning
`some url` when a `return` statement fires and `none` when control falls
through to the thumbnail fallback. -/
def extract_tryBlock (manifest : PyVal) : Except PyErr (Option PyVal) := do
  let seq ← pyGet manifest "sequences" (.list [])
  if seq.truthy then
    let s0 ← pyIndex0 seq
    let canvases ← pyGet s0 "canvases" (.list [])
    let canvas ← pyIndex0 canvases
    let images ← pyGet canvas "images" (.list [])
    let img ← pyIndex0 images
    let res ← pyGet img "resource" (.dict [])
    let url ← pyGet res "@id" (.str "")
    if url.truthy then
      return (some url)
    else
      let svc ← pyGet res "service" (.dict [])
      let svcId : PyVal := match svc with
        | .dict xs => (List.lookup "@id" xs).getD (.str "")
        | _ => .str ""
      if svcId.truthy then
        return (some (.str (pyStrOf svcId ++ "/full/800,/0/default.jpg")))
      else
        return Option.none
  else
    return Option.none

/-- The thumbnail fallback of `extract_image_url` (lines 119–124):
`manifest.get("thumbnail")`, unwrap a list to its first element, then
`.get("@id", "")`; returns `""` when the thumbnail is falsy. -/
def extract_thumb (manifest : PyVal) : Except PyErr PyVal := do
  let thumb ← pyGet manifest "thumbnail" .null
  if thumb.truthy then
    let t ← (match thumb with
      | .list _ => pyIndex0 thumb
      | _ => pure thumb)
    pyGet t "@id" (.str "")
  else
    pure (.str "")

/-- `extract_image_url` from the source.  The `except` clause catches only
`IndexError`, `KeyError` and `TypeError`; an `AttributeError` raised by
calling `.get` on a non-dict escapes the function. -/
def extract_image_url (manifest : PyVal) : Except PyErr PyVal :=
  match extract_tryBlock manifest with
  | .ok (some url) => .ok url
  | .ok Option.none => extract_thumb manifest
  | .error .attributeError => .error .attributeError
  | .error _ => extract_thumb manifest

/-- Image feature vectors (unit-normalized, per the model contract). -/
abbrev Emb := List ℚ

/-- The run's persistent caches: parsed manifest documents keyed by
`mkey` of the manifest URI (the `.json` files), and one embedding per item
id (the `_emb.npy` files).  The two filename patterns never collide, so
the store is modelled as two maps. -/
structure Cache where
  man : String → Option PyVal
  emb : String → Option Emb

/-- Collaborator-call counters: network manifest GETs (cache misses that
reach `requests.get` in `fetch_manifest`) and image GETs (calls of
`fetch_image`). -/
structure Counts where
  manifestFetches : ℕ
  imageFetches : ℕ
deriving DecidableEq

/-- The network collaborator: responses for manifest URLs (parsed JSON)
and image URLs; `none` means the request failed (timeout, non-2xx,
undecodable payload). -/
structure World (Img : Type) where
  manifestResp : String → Option PyVal
  imageResp : String → Option Img

/-- The external CLIP model, a black box per the spec: `imageFeat` is the
L2-normalized output of `get_image_features` (the normalization on lines
141–142 of the source is part of this boundary), `textFeat` the
L2-normalized `get_text_features` of one prompt, and `logitScale` the
value `model.logit_scale.exp()`. -/
structure CLIP (Img : Type) where
  imageFeat : Img → Emb
  textFeat : String → Emb
  logitScale : ℚ

/-- Write a manifest document into the cache (`cache_path.write_text`). -/
def insertMan (c : Cache) (k : String) (d : PyVal) : Cache :=
  { c with man := fun k2 => if k2 = k then some d else c.man k2 }

/-- `save_embedding`: write an embedding under an item id. -/
def save_embedding (c : Cache) (itemId : String) (v : Emb) : Cache :=
  { c with emb := fun k2 => if k2 = itemId then some v else c.emb k2 }

/-- `load_embedding`: read-through lookup of a cached embedding. -/
def load_embedding (c : Cache) (itemId : String) : Option Emb :=
  c.emb itemId

/-- `fetch_manifest`: consult the manifest cache under `mkey url`; on a
miss issue one network GET, caching any successfully parsed document
(falsy documents included) and returning `none` on failure. -/
def fetch_manifest {Img : Type} (w : World Img) (c : Cache) (cnt : Counts)
    (url : String) : Option PyVal × Cache × Counts :=
  match c.man (mkey url) with
  | some d => (some d, c, cnt)
  | Option.none =>
    let cnt2 := { cnt with manifestFetches := cnt.manifestFetches + 1 }
    match w.manifestResp url with
    | some d => (some d, insertMan c (mkey url) d, cnt2)
    | Option.none => (Option.none, c, cnt2)

/-- `fetch_image`: one GET for the image bytes.  A non-string argument
makes `requests.get` raise inside the function's `try`, which is caught
and mapped to `None` like any transport failure. -/
def fetch_image {Img : Type} (w : World Img) (url : PyVal) : Option Img :=
  match url with
  | .str s => w.imageResp s
  | _ => Option.none

/-- `get_embedding`: the black-box model turns an image into its
unit-normalized feature vector. -/
def get_embedding {Img : Type} (m : CLIP Img) (img : Img) : Emb :=
  m.imageFeat img

/-- Dot product of two feature vectors (`mat @ mat.T` entrywise; the
embeddings are unit-normalized so this is the cosine similarity). -/
def dot (a b : Emb) : ℚ := (List.zipWith (· * ·) a b).sum

/-- Softmax over rational scores.  The floating-point exponential of the
source is the parameter `e`; theorems assume only that it is positive,
which the real exponential satisfies. -/
def softmax (e : ℚ → ℚ) (xs : List ℚ) : List ℚ :=
  let exps := xs.map e
  exps.map (fun x => x / exps.sum)

/-- Python's `sorted(···, key=lambda x: -key x)` is a stable descending
sort; insertion sort with the non-strict descending relation computes
exactly that (unique) stable result. -/
def stableSortDesc {α : Type} (key : α → ℚ) (l : List α) : List α :=
  l.insertionSort (fun a b => key b ≤ key a)

/-- The per-image logits of the CLIP forward pass
(`model(**inputs).logits_per_image[0]`): `logit_scale.exp()` times the
image/text feature dot products. -/
def clipLogitsPerImage {Img : Type} (m : CLIP Img) (img : Img)
    (labels : List String) : List ℚ :=
  labels.map (fun l => m.logitScale * dot (m.imageFeat img) (m.textFeat l))

/-- `zero_shot`: score the label vocabulary directly against a fetched
image, convert to probabilities, stable-sort descending, take the top-k
label names. -/
def zero_shot {Img : Type} (e : ℚ → ℚ) (m : CLIP Img) (img : Img)
    (labels : List String) (topK : ℕ) : List String :=
  let probs := softmax e (clipLogitsPerImage m img labels)
  let ranked := stableSortDesc (fun p => p.2) (labels.zip probs)
  (ranked.take topK).map (fun p => p.1)

/-- `zero_shot_from_embedding`: score against a cached embedding and
freshly computed text features
(`(img_tensor @ text_feats.T) * model.logit_scale.exp()`). -/
def zero_shot_from_embedding {Img : Type} (e : ℚ → ℚ) (m : CLIP Img)
    (imageEmb : Emb) (labels : List String) (topK : ℕ) : List String :=
  let logits := labels.map (fun l => dot imageEmb (m.textFeat l) * m.logitScale)
  let probs := softmax e logits
  let ranked := stableSortDesc (fun p => p.2) (labels.zip probs)
  (ranked.take topK).map (fun p => p.1)

/-- The fixed tag schema `TAG_PROMPTS` (label name → prompt text),
in source order. -/
def TAG_PROMPTS : List (String × String) :=
  [ ("steam locomotive",    "a steam locomotive with visible smoke, steam, or smokestack"),
    ("diesel locomotive",   "a diesel locomotive or diesel-electric train engine"),
    ("electric locomotive", "an electric locomotive or electric train with overhead wires or third rail"),
    ("passenger train",     "a passenger train with passenger cars or coaches"),
    ("freight train",       "a freight train with boxcars, tankers, or flatcars"),
    ("yard / switching",    "a rail yard with multiple tracks, switching operations, or parked rolling stock"),
    ("station / depot",     "a railroad station, train depot, or platform where passengers board"),
    ("rail yard",           "a railroad yard with many tracks, signals, and parked trains"),
    ("open track",          "a train on open track through countryside, fields, or rural landscape"),
    ("urban / industrial",  "a train in an urban or industrial setting with buildings and infrastructure"),
    ("bridge / trestle",    "a railroad bridge, trestle, or viaduct"),
    ("vintage (pre-1920s)", "a very old photograph from the early 1900s or 19th century, sepia toned"),
    ("mid-century",         "a mid-20th century photograph from the 1930s to 1950s"),
    ("black and white",     "a black and white photograph with no color"),
    ("color photo",         "a color photograph"),
    ("close-up detail",     "a close-up or detail shot showing mechanical parts, wheels, or equipment"),
    ("photograph",          "a photographic image, a real photograph of a scene"),
    ("poster / illustration", "an illustrated poster, drawing, or graphic design, not a photograph") ]

/-- `TOP_TAGS` default. -/
def TOP_TAGS : ℕ := 4

/-- `TOP_SIMILAR` default. -/
def TOP_SIMILAR : ℕ := 3

/-- `prompt_to_label.get(p, p)`: the reversed dict comprehension
`{v: k for k, v in TAG_PROMPTS.items()}` (a duplicate prompt text would
keep the later entry, as in a Python dict), falling back to the prompt
itself. -/
def prompt_to_label (prompts : List (String × String)) (p : String) : String :=
  (((prompts.reverse).find? (fun kv => kv.2 == p)).map (fun kv => kv.1)).getD p

/-- One catalog record.  `title` and `manifest` come from the input;
`id`, `image_url`, `visual_tags` and `similar_items` are the keys the
pipeline may add (`none` models an absent key).  `image_url` is a `PyVal`
because `extract_image_url` can hand back a non-string manifest value. -/
structure Item where
  title : String
  manifest : String
  id : Option String
  image_url : Option PyVal
  visual_tags : Option (List String)
  similar_items : Option (List String)

/-- The loop body of `phase1_fetch_and_tag` for one item: set the slug id,
short-circuit on a cached embedding (recompute tags from it when forced or
when tags are absent, else skip), otherwise resolve the manifest
(cache-or-fetch), extract and record the image URL, fetch the image, and
on success tag, embed and persist.  An uncaught exception from
`extract_image_url` aborts with `.error`. -/
def stepItem {Img : Type} (e : ℚ → ℚ) (m : CLIP Img) (w : World Img)
    (prompts : List (String × String)) (topTags : ℕ) (force : Bool)
    (c : Cache) (cnt : Counts) (item : Item) :
    Except PyErr (Item × Option Emb × Cache × Counts) :=
  let sid := slugify item.title
  let item1 := { item with id := some sid }
  match load_embedding c sid with
  | some cachedEmb =>
    if force || item1.visual_tags = Option.none then
      let tops := zero_shot_from_embedding e m cachedEmb (prompts.map (fun kv => kv.2)) topTags
      .ok ({ item1 with visual_tags := some (tops.map (prompt_to_label prompts)) },
            some cachedEmb, c, cnt)
    else
      .ok (item1, some cachedEmb, c, cnt)
  | Option.none =>
    match fetch_manifest w c cnt item1.manifest with
    | (mOpt, c2, cnt2) =>
      match mOpt with
      | Option.none =>
        .ok ({ item1 with image_url := some (.str "") }, Option.none, c2, cnt2)
      | some man =>
        if man.truthy = false then
          .ok ({ item1 with image_url := some (.str "") }, Option.none, c2, cnt2)
        else
          match extract_image_url man with
          | .error er => .error er
          | .ok url =>
            let item2 := { item1 with image_url := some url }
            if url.truthy = false then
              .ok (item2, Option.none, c2, cnt2)
            else
              let cnt3 := { cnt2 with imageFetches := cnt2.imageFetches + 1 }
              match fetch_image w url with
              | Option.none => .ok (item2, Option.none, c2, cnt3)
              | some img =>
                let tops := zero_shot e m img (prompts.map (fun kv => kv.2)) topTags
                let item3 := { item2 with visual_tags := some (tops.map (prompt_to_label prompts)) }
                let embv := get_embedding m img
                .ok (item3, some embv, save_embedding c2 sid embv, cnt3)

/-- `phase1_fetch_and_tag`: drive each item through `stepItem` in order,
accumulating the output records and the index-aligned embedding list;
an uncaught exception aborts the whole run. -/
def phase1_fetch_and_tag {Img : Type} (e : ℚ → ℚ) (m : CLIP Img)
    (w : World Img) (prompts : List (String × String)) (topTags : ℕ)
    (force : Bool) :
    List Item → Cache → Counts →
    Except PyErr (List Item × List (Option Emb) × Cache × Counts)
  | [], c, cnt => .ok ([], [], c, cnt)
  | item :: rest, c, cnt =>
    match stepItem e m w prompts topTags force c cnt item with
    | .error er => .error er
    | .ok (it, emb?, c2, cnt2) =>
      match phase1_fetch_and_tag e m w prompts topTags force rest c2 cnt2 with
      | .error er => .error er
      | .ok (its, es, c3, cnt3) => .ok (it :: its, emb? :: es, c3, cnt3)

/-- The list `[(i, e) for i, e in enumerate(embeddings) if e is not None]`,
with `n` the index of the first element. -/
def validPairs (n : ℕ) : List (Option Emb) → List (ℕ × Emb)
  | [] => []
  | Option.none :: rest => validPairs (n + 1) rest
  | some v :: rest => (n, v) :: validPairs (n + 1) rest

/-- The neighbor list for the valid item at original index `i` with
embedding `v`: its similarity-matrix row (paired directly with the valid
entry each score belongs to, which carries the same information as
`enumerate(row)` plus `valid_indices`), stable-sorted descending, self
excluded by original index, mapped to ids, truncated to `n`. -/
def simList (n : ℕ) (ids : List String) (valid : List (ℕ × Emb))
    (i : ℕ) (v : Emb) : List String :=
  let sortedRow := stableSortDesc (fun p => p.2)
    (valid.map (fun q => (q, dot v q.2)))
  ((sortedRow.filter (fun p => p.1.1 ≠ i)).map
      (fun p => ids.getD p.1.1 "")).take n

/-- Assignment of `similar_items` for the item at original index `i`:
items appearing in `valid` get their neighbor list, the rest are left
untouched. -/
def assignSim (n : ℕ) (ids : List String) (valid : List (ℕ × Emb))
    (i : ℕ) (item : Item) : Item :=
  match valid.find? (fun q => q.1 == i) with
  | some q => { item with similar_items := some (simList n ids valid i q.2) }
  | Option.none => item

/-- The index-tracking map underlying `phase2_assign_similar`. -/
def assignAll (n : ℕ) (ids : List String) (valid : List (ℕ × Emb)) :
    ℕ → List Item → List Item
  | _, [] => []
  | i, item :: rest => assignSim n ids valid i item :: assignAll n ids valid (i + 1) rest

/-- `phase2_assign_similar`: with fewer than two valid embeddings perform
no mutation; otherwise give every valid item its top-`n` neighbor ids. -/
def phase2_assign_similar (n : ℕ) (items : List Item)
    (embeddings : List (Option Emb)) (ids : List String) : List Item :=
  let valid := validPairs 0 embeddings
  if valid.length < 2 then items
  else assignAll n ids valid 0 items

/-- The whole run for one input catalog (`main` without the excluded
collaborators): phase 1, then ids, then phase 2 over the final embedding
set.  The returned items are the output artifact. -/
def pipeline {Img : Type} (e : ℚ → ℚ) (m : CLIP Img) (w : World Img)
    (prompts : List (String × String)) (topTags topSimilar : ℕ)
    (force : Bool) (items : List Item) (c : Cache) (cnt : Counts) :
    Except PyErr (List Item × Cache × Counts) :=
  match phase1_fetch_and_tag e m w prompts topTags force items c cnt with
  | .error er => .error er
  | .ok (its, es, c1, cnt1) =>
    let ids := its.map (fun it => it.id.getD "")
    .ok (phase2_assign_similar topSimilar its es ids, c1, cnt1)

theorem collapseSeps_chars {c : Char} :
    ∀ l : List Char, c ∈ collapseSeps l → c = '-' ∨ (c ∈ l ∧ isSep c = false)
  | [], h => by simp [collapseSeps] at h
  | [d], h => by
    by_cases hd : isSep d
    · simp [collapseSeps, hd] at h; exact Or.inl h
    · simp [collapseSeps, hd] at h; subst h
      exact Or.inr ⟨List.mem_singleton_self _, by simpa using hd⟩
  | d :: d2 :: rest, h => by
    by_cases hd : isSep d
    · by_cases hd2 : isSep d2
      · simp only [collapseSeps, if_pos hd, if_pos hd2] at h
        rcases collapseSeps_chars (d2 :: rest) h with h1 | ⟨h1, h2⟩
        · exact Or.inl h1
        · exact Or.inr ⟨List.mem_cons_of_mem _ h1, h2⟩
      · simp only [collapseSeps, if_pos hd, if_neg hd2, List.mem_cons] at h
        rcases h with h1 | h1
        · exact Or.inl h1
        · rcases collapseSeps_chars (d2 :: rest) h1 with h2 | ⟨h2, h3⟩
          · exact Or.inl h2
          · exact Or.inr ⟨List.mem_cons_of_mem _ h2, h3⟩
    · simp only [collapseSeps, if_neg hd, List.mem_cons] at h
      rcases h with h1 | h1
      · subst h1; exact Or.inr ⟨List.mem_cons_self _ _, by simpa using hd⟩
      · rcases collapseSeps_chars (d2 :: rest) h1 with h2 | ⟨h2, h3⟩
        · exact Or.inl h2
        · exact Or.inr ⟨List.mem_cons_of_mem _ h2, h3⟩

theorem pyStrip_subset {c : Char} {l : List Char} (h : c ∈ pyStrip l) : c ∈ l := by
  unfold pyStrip at h
  rw [List.mem_reverse] at h
  have h2 := (List.dropWhile_sublist _).mem h
  rw [List.mem_reverse] at h2
  exact (List.dropWhile_sublist _).mem h2

/-- Claim C9 — slug determinism: the id derived from a title is the pure
function `slugify` of it, and for every title the result has length at
most 80, contains no whitespace, and contains only word characters and
hyphens. -/
theorem c9_slug_determinism (title : String) :
    (slugify title).length ≤ 80 ∧
    ∀ c ∈ (slugify title).toList,
      (isWordChar c = true ∨ c = '-') ∧ c.isWhitespace = false := by
  constructor
  · show (List.take 80 _).length ≤ 80
    simp [List.length_take]
  · intro c hc
    have hc2 : c ∈ collapseSeps (pyStrip ((title.toList.map Char.toLower).filter
        (fun c => isWordChar c || c.isWhitespace || c = '-'))) := List.mem_of_mem_take hc
    rcases collapseSeps_chars _ hc2 with h1 | ⟨h1, h2⟩
    · subst h1; exact ⟨Or.inr rfl, by decide⟩
    · have h3 := List.of_mem_filter (pyStrip_subset h1)
      have h4 : isSep c = false := h2
      simp only [isSep, Bool.or_eq_false_iff] at h4
      simp only [Bool.or_eq_true, decide_eq_true_eq] at h3
      rcases h3 with (h3 | h3) | h3
      · exact ⟨Or.inl h3, h4.1⟩
      · exact absurd h3 (by simp [h4.1])
      · exact ⟨Or.inr h3, h4.1⟩

/-- Claim C2 (code bug): on the manifest `{"thumbnail": "https://x/t.jpg"}`
— a dict whose thumbnail is a plain string, a shape IIIF allows — the
resolver does not return a string: calling `.get` on the string raises
`AttributeError`, which the `except (IndexError, KeyError, TypeError)`
clause does not catch, and the same exception escapes the controller and
aborts the run (second conjunct: a one-item batch whose manifest resolves
to this document makes phase 1 return an error rather than a result). -/
theorem c2_extract_raises :
    extract_image_url (.dict [("thumbnail", .str "https://x/t.jpg")])
      = .error .attributeError ∧
    phase1_fetch_and_tag (fun _ => (1 : ℚ))
      (⟨fun _ => [1], fun _ => [1], 1⟩ : CLIP ℕ)
      ⟨fun _ => some (.dict [("thumbnail", .str "https://x/t.jpg")]), fun _ => some 0⟩
      TAG_PROMPTS TOP_TAGS false
      [⟨"a", "m", Option.none, Option.none, Option.none, Option.none⟩]
      ⟨fun _ => Option.none, fun _ => Option.none⟩ ⟨0, 0⟩
      = .error .attributeError := by
  exact ⟨rfl, rfl⟩

/-- Claim C5 — the two tagging entry paths agree: when the cached
embedding is the image's embedding (the sole image-derived input),
scoring from the embedding and scoring directly against the image return
identical label rankings. -/
theorem c5_paths_agree {Img : Type} (e : ℚ → ℚ) (m : CLIP Img) (img : Img)
    (labels : List String) (topK : ℕ) (emb : Emb)
    (h : emb = get_embedding m img) :
    zero_shot_from_embedding e m emb labels topK = zero_shot e m img labels topK := by
  subst h
  unfold zero_shot_from_embedding zero_shot clipLogitsPerImage get_embedding
  simp only [mul_comm]

theorem c5_witness :
    zero_shot_from_embedding (fun _ => (1 : ℚ)) (⟨fun _ => [1], fun _ => [1], 1⟩ : CLIP ℕ)
        [1] ["a", "b"] 1
      = zero_shot (fun _ => (1 : ℚ)) (⟨fun _ => [1], fun _ => [1], 1⟩ : CLIP ℕ) 0 ["a", "b"] 1 :=
  c5_paths_agree (fun _ => (1 : ℚ)) _ 0 ["a", "b"] 1 [1] rfl

/-- Claim C10 — manifest-cache key collisions: the cache key is the slug
of the last 60 characters of the URI, so when two distinct URIs collide on
that key, a successful fetch of the first leaves a cache entry that the
second call returns directly — the second URI gets the first URI's
document and issues no network request. -/
theorem c10_cache_key_collision {Img : Type} (w : World Img) (c : Cache)
    (cnt : Counts) (u1 u2 : String) (d : PyVal)
    (_hne : u1 ≠ u2)
    (hkey : mkey u1 = mkey u2)
    (hmiss : c.man (mkey u1) = Option.none)
    (hresp : w.manifestResp u1 = some d) :
    (fetch_manifest w c cnt u1).1 = some d ∧
    (fetch_manifest w ((fetch_manifest w c cnt u1).2.1)
        ((fetch_manifest w c cnt u1).2.2) u2).1 = some d ∧
    (fetch_manifest w ((fetch_manifest w c cnt u1).2.1)
        ((fetch_manifest w c cnt u1).2.2) u2).2.2
      = (fetch_manifest w c cnt u1).2.2 := by
  have h1 : fetch_manifest w c cnt u1
      = (some d, insertMan c (mkey u1) d,
          { cnt with manifestFetches := cnt.manifestFetches + 1 }) := by
    unfold fetch_manifest
    rw [hmiss, hresp]
  rw [h1]
  refine ⟨rfl, ?_, ?_⟩ <;>
  · unfold fetch_manifest insertMan
    simp [← hkey]

theorem c10_witness :
    ("A" : String) ≠ "a" ∧ mkey "A" = mkey "a" ∧
    (fetch_manifest
        (⟨fun u => if u = "A" then some (.str "docA") else some (.str "docB"),
          fun _ => Option.none⟩ : World ℕ)
        ⟨fun _ => Option.none, fun _ => Option.none⟩ ⟨0, 0⟩ "A").1 = some (.str "docA") ∧
    (fetch_manifest
        (⟨fun u => if u = "A" then some (.str "docA") else some (.str "docB"),
          fun _ => Option.none⟩ : World ℕ)
        ((fetch_manifest
          (⟨fun u => if u = "A" then some (.str "docA") else some (.str "docB"),
            fun _ => Option.none⟩ : World ℕ)
          ⟨fun _ => Option.none, fun _ => Option.none⟩ ⟨0, 0⟩ "A").2.1)
        ((fetch_manifest
          (⟨fun u => if u = "A" then some (.str "docA") else some (.str "docB"),
            fun _ => Option.none⟩ : World ℕ)
          ⟨fun _ => Option.none, fun _ => Option.none⟩ ⟨0, 0⟩ "A").2.2) "a").1
      = some (.str "docA") := by
  have h := c10_cache_key_collision
    (⟨fun u => if u = "A" then some (.str "docA") else some (.str "docB"),
      fun _ => Option.none⟩ : World ℕ)
    ⟨fun _ => Option.none, fun _ => Option.none⟩ ⟨0, 0⟩ "A" "a" (.str "docA")
    (by decide) rfl rfl rfl
  exact ⟨by decide, rfl, h.1, h.2.1⟩

theorem stableSortDesc_perm {α : Type} (key : α → ℚ) (l : List α) :
    List.Perm (stableSortDesc key l) l :=
  List.perm_insertionSort _ l

theorem stableSortDesc_sorted {α : Type} (key : α → ℚ) (l : List α) :
    (stableSortDesc key l).Pairwise (fun a b => key b ≤ key a) := by
  haveI : IsTotal α (fun a b => key b ≤ key a) := ⟨fun a b => le_total (key b) (key a)⟩
  haveI : IsTrans α (fun a b => key b ≤ key a) := ⟨fun _ _ _ h1 h2 => le_trans h2 h1⟩
  exact List.sorted_insertionSort _ l

theorem stableSortDesc_filter {α : Type} (key : α → ℚ) (l : List α) (q : ℚ) :
    (stableSortDesc key l).filter (fun a => key a == q)
      = l.filter (fun a => key a == q) := by
  have hperm : List.Perm ((stableSortDesc key l).filter (fun a => key a == q))
      (l.filter (fun a => key a == q)) :=
    (stableSortDesc_perm key l).filter _
  have hpair : (l.filter (fun a => key a == q)).Pairwise (fun a b => key b ≤ key a) := by
    apply List.pairwise_of_forall_mem_list
    intro a ha b hb
    have ha2 : key a = q := by simpa using (List.mem_filter.mp ha).2
    have hb2 : key b = q := by simpa using (List.mem_filter.mp hb).2
    rw [ha2, hb2]
  have hsub : List.Sublist (l.filter (fun a => key a == q)) (stableSortDesc key l) :=
    List.sublist_insertionSort hpair (List.filter_sublist l)
  have hself : (l.filter (fun a => key a == q)).filter (fun a => key a == q)
      = l.filter (fun a => key a == q) := by
    apply List.filter_eq_self.mpr
    intro a ha
    exact (List.mem_filter.mp ha).2
  have hsub2 : List.Sublist (l.filter (fun a => key a == q))
      ((stableSortDesc key l).filter (fun a => key a == q)) :=
    hself ▸ hsub.filter _
  exact (hsub2.eq_of_length hperm.length_eq.symm).symm

theorem softmax_length (e : ℚ → ℚ) (xs : List ℚ) :
    (softmax e xs).length = xs.length := by
  simp [softmax]

theorem softmax_dist (e : ℚ → ℚ) (he : ∀ x, 0 < e x) (xs : List ℚ)
    (hne : xs ≠ []) :
    (softmax e xs).sum = 1 ∧ ∀ p ∈ softmax e xs, 0 < p := by
  have hpos : ∀ a ∈ xs.map e, 0 < a := by
    intro a ha
    obtain ⟨x, _, rfl⟩ := List.mem_map.mp ha
    exact he x
  have hne2 : xs.map e ≠ [] := by simpa using hne
  have hs : 0 < (xs.map e).sum := List.sum_pos _ hpos hne2
  constructor
  · show ((xs.map e).map (fun x => x / (xs.map e).sum)).sum = 1
    simp only [div_eq_mul_inv]
    rw [List.sum_map_mul_right, List.map_id']
    exact mul_inv_cancel₀ (ne_of_gt hs)
  · intro p hp
    obtain ⟨x, hx, rfl⟩ := List.mem_map.mp hp
    exact div_pos (hpos x hx) hs

/-- Claim C8 — the zero-shot tagger contract: the result is exactly the
top-K names of the probability ranking; it has length `min K L`; every
name comes from the vocabulary; the ranking is descending with ties kept
in vocabulary order (filtering any score level preserves the zip's
original order — the stable-sort property); and with a positive
exponential the scores form a probability distribution (sum one, all
positive) whenever the vocabulary is nonempty. -/
theorem c8_zero_shot_contract {Img : Type} (e : ℚ → ℚ) (m : CLIP Img)
    (img : Img) (labels : List String) (topK : ℕ)
    (he : ∀ x, 0 < e x) :
    zero_shot e m img labels topK
      = ((stableSortDesc (fun p => p.2)
            (labels.zip (softmax e (clipLogitsPerImage m img labels)))).take topK).map
          (fun p => p.1) ∧
    (zero_shot e m img labels topK).length = min topK labels.length ∧
    (∀ name ∈ zero_shot e m img labels topK, name ∈ labels) ∧
    (stableSortDesc (fun p => p.2)
        (labels.zip (softmax e (clipLogitsPerImage m img labels)))).Pairwise
      (fun a b => b.2 ≤ a.2) ∧
    (∀ q : ℚ,
      (stableSortDesc (fun p => p.2)
          (labels.zip (softmax e (clipLogitsPerImage m img labels)))).filter
          (fun p => p.2 == q)
        = (labels.zip (softmax e (clipLogitsPerImage m img labels))).filter
            (fun p => p.2 == q)) ∧
    (labels ≠ [] →
      (softmax e (clipLogitsPerImage m img labels)).sum = 1 ∧
      ∀ p ∈ softmax e (clipLogitsPerImage m img labels), 0 < p) := by
  have hlen : (labels.zip (softmax e (clipLogitsPerImage m img labels))).length
      = labels.length := by
    simp [List.length_zip, softmax_length, clipLogitsPerImage]
  have h2 : zero_shot e m img labels topK
      = ((stableSortDesc (fun p : String × ℚ => p.2)
            (labels.zip (softmax e (clipLogitsPerImage m img labels)))).take topK).map
          (fun p => p.1) := rfl
  refine ⟨rfl, ?_, ?_, stableSortDesc_sorted _ _, stableSortDesc_filter _ _, ?_⟩
  · rw [h2, List.length_map, List.length_take,
      (stableSortDesc_perm (fun p : String × ℚ => p.2) _).length_eq, hlen]
  · intro name hname
    rw [h2] at hname
    obtain ⟨p, hp, rfl⟩ := List.mem_map.mp hname
    have hp2 := (stableSortDesc_perm (fun p : String × ℚ => p.2) _).mem_iff.mp
      (List.mem_of_mem_take hp)
    exact (List.of_mem_zip hp2).1
  · intro hne
    have : clipLogitsPerImage m img labels ≠ [] := by
      simpa [clipLogitsPerImage] using hne
    exact softmax_dist e he _ this

theorem c8_witness :
    (zero_shot (fun _ => (1 : ℚ)) (⟨fun _ => [1], fun _ => [1], 1⟩ : CLIP ℕ)
        0 ["a", "b"] 1).length = min 1 2 :=
  (c8_zero_shot_contract (fun _ => (1 : ℚ)) ⟨fun _ => [1], fun _ => [1], 1⟩
    0 ["a", "b"] 1 (fun _ => one_pos)).2.1

theorem validPairs_lb {p : ℕ × Emb} :
    ∀ (es : List (Option Emb)) (n : ℕ), p ∈ validPairs n es → n ≤ p.1
  | [], _, h => by simp [validPairs] at h
  | Option.none :: rest, n, h => by
    have := validPairs_lb rest (n + 1) h
    omega
  | some v :: rest, n, h => by
    rcases (List.mem_cons).mp h with h1 | h1
    · subst h1; exact le_refl _
    · have := validPairs_lb rest (n + 1) h1
      omega

theorem validPairs_get {p : ℕ × Emb} :
    ∀ (es : List (Option Emb)) (n : ℕ), p ∈ validPairs n es →
      n ≤ p.1 ∧ es.get? (p.1 - n) = some (some p.2)
  | [], _, h => by simp [validPairs] at h
  | Option.none :: rest, n, h => by
    obtain ⟨h1, h2⟩ := validPairs_get rest (n + 1) h
    refine ⟨by omega, ?_⟩
    have h3 : p.1 - n = (p.1 - (n + 1)) + 1 := by omega
    rw [h3]
    simpa using h2
  | some v :: rest, n, h => by
    rcases (List.mem_cons).mp h with h1 | h1
    · subst h1; simp
    · obtain ⟨h1, h2⟩ := validPairs_get rest (n + 1) h1
      refine ⟨by omega, ?_⟩
      have h3 : p.1 - n = (p.1 - (n + 1)) + 1 := by omega
      rw [h3]
      simpa using h2

theorem validPairs_ub {p : ℕ × Emb} :
    ∀ (es : List (Option Emb)) (n : ℕ), p ∈ validPairs n es → p.1 < n + es.length := by
  intro es n h
  obtain ⟨h1, h2⟩ := validPairs_get es n h
  have h3 : p.1 - n < es.length := by
    by_contra h4
    rw [List.get?_eq_none.mpr (by omega)] at h2
    exact Option.noConfusion h2
  omega

theorem validPairs_mem {v : Emb} :
    ∀ (es : List (Option Emb)) (n i : ℕ), es.get? i = some (some v) →
      (n + i, v) ∈ validPairs n es
  | [], _, i, h => by simp at h
  | Option.none :: rest, n, 0, h => by simp at h
  | Option.none :: rest, n, i + 1, h => by
    have h2 := validPairs_mem rest (n + 1) i (by simpa using h)
    show (n + (i + 1), v) ∈ validPairs (n + 1) rest
    have h3 : n + (i + 1) = (n + 1) + i := by omega
    rw [h3]
    exact h2
  | some w :: rest, n, 0, h => by
    simp at h
    subst h
    simp [validPairs]
  | some w :: rest, n, i + 1, h => by
    have h2 := validPairs_mem rest (n + 1) i (by simpa using h)
    have h3 : n + (i + 1) = (n + 1) + i := by omega
    exact List.mem_cons_of_mem _ (h3 ▸ h2)

theorem validPairs_countP {i : ℕ} :
    ∀ (es : List (Option Emb)) (n : ℕ), i < n →
      (validPairs n es).countP (fun q => decide (q.1 = i)) = 0
  | [], _, _ => by simp [validPairs]
  | Option.none :: rest, n, h => validPairs_countP rest (n + 1) (by omega)
  | some v :: rest, n, h => by
    have h2 := validPairs_countP (i := i) rest (n + 1) (by omega)
    simp only [validPairs, List.countP_cons]
    simp only [h2]
    have : ¬ (n = i) := by omega
    simp [this]

theorem validPairs_countP_one {v : Emb} :
    ∀ (es : List (Option Emb)) (n i : ℕ), es.get? i = some (some v) →
      (validPairs n es).countP (fun q => decide (q.1 = n + i)) = 1
  | [], _, i, h => by simp at h
  | Option.none :: rest, n, 0, h => by simp at h
  | Option.none :: rest, n, i + 1, h => by
    have h2 := validPairs_countP_one rest (n + 1) i (by simpa using h)
    show (validPairs (n + 1) rest).countP (fun q => decide (q.1 = n + (i + 1))) = 1
    have h3 : n + (i + 1) = (n + 1) + i := by omega
    rw [h3]
    exact h2
  | some w :: rest, n, 0, h => by
    simp at h
    subst h
    simp only [validPairs, List.countP_cons]
    have h2 := validPairs_countP (i := n + 0) rest (n + 1) (by omega)
    simp only [h2]
    simp
  | some w :: rest, n, i + 1, h => by
    have h2 := validPairs_countP_one rest (n + 1) i (by simpa using h)
    simp only [validPairs, List.countP_cons]
    have h3 : n + (i + 1) = (n + 1) + i := by omega
    rw [h3, h2]
    have : ¬ (n = n + 1 + i) := by omega
    simp [this]

theorem countP_not_add_countP {α : Type} (p : α → Bool) (l : List α) :
    l.countP (fun a => !(p a)) + l.countP p = l.length := by
  induction l with
  | nil => simp
  | cons a rest ih =>
    by_cases h : p a = true
    · simp [List.countP_cons, h]; omega
    · simp only [List.countP_cons, h]
      simp only [Bool.not_eq_true] at h
      simp [h]
      omega

theorem assignAll_get? (n : ℕ) (ids : List String) (valid : List (ℕ × Emb)) :
    ∀ (items : List Item) (k i : ℕ),
      (assignAll n ids valid k items).get? i
        = (items.get? i).map (assignSim n ids valid (k + i))
  | [], k, i => by simp [assignAll]
  | item :: rest, k, 0 => by simp [assignAll]
  | item :: rest, k, i + 1 => by
    show (assignAll n ids valid (k + 1) rest).get? i = _
    rw [assignAll_get? n ids valid rest (k + 1) i]
    have h : k + 1 + i = k + (i + 1) := by omega
    simp [h]

theorem validPairs_find? {es : List (Option Emb)} {i : ℕ} {v : Emb}
    (h : es.get? i = some (some v)) :
    (validPairs 0 es).find? (fun q => q.1 == i) = some (i, v) := by
  have hmem : (0 + i, v) ∈ validPairs 0 es := validPairs_mem es 0 i h
  rw [Nat.zero_add] at hmem
  have hsome : ((validPairs 0 es).find? (fun q => q.1 == i)).isSome :=
    List.find?_isSome.mpr ⟨(i, v), hmem, by simp⟩
  obtain ⟨x, hx⟩ := Option.isSome_iff_exists.mp hsome
  have hpred := List.find?_some hx
  have hxmem := List.mem_of_find?_eq_some hx
  have hx1 : x.1 = i := by simpa using hpred
  obtain ⟨_, hget⟩ := validPairs_get es 0 hxmem
  rw [hx1] at hget
  simp only [Nat.sub_zero] at hget
  rw [h] at hget
  have hx2 : x.2 = v := by
    have := Option.some.inj hget
    exact (Option.some.inj this).symm
  rw [hx]
  have : x = (i, v) := Prod.ext hx1 hx2
  rw [this]

theorem validPairs_find?_none {es : List (Option Emb)} {i : ℕ}
    (h : es.get? i = some Option.none ∨ es.get? i = Option.none) :
    (validPairs 0 es).find? (fun q => q.1 == i) = Option.none := by
  apply List.find?_eq_none.mpr
  intro x hx hpred
  have hx1 : x.1 = i := by simpa using hpred
  obtain ⟨_, hget⟩ := validPairs_get es 0 hx
  rw [hx1, Nat.sub_zero] at hget
  rcases h with h | h <;> rw [h] at hget <;> simp at hget

theorem simList_length {n : ℕ} {ids : List String} {valid : List (ℕ × Emb)}
    {i : ℕ} {v : Emb}
    (h1 : valid.countP (fun q => decide (q.1 = i)) = 1) :
    (simList n ids valid i v).length = min n (valid.length - 1) := by
  unfold simList
  rw [List.length_take, List.length_map]
  congr 1
  rw [← List.countP_eq_length_filter]
  have hperm : List.Perm
      (stableSortDesc (fun p => p.2) (valid.map (fun q => (q, dot v q.2))))
      (valid.map (fun q => (q, dot v q.2))) := stableSortDesc_perm _ _
  rw [hperm.countP_eq]
  rw [List.countP_map]
  have hcomp : ((fun p : (ℕ × Emb) × ℚ => decide (p.1.1 ≠ i)) ∘
      (fun q : ℕ × Emb => (q, dot v q.2))) = fun q : ℕ × Emb => !(decide (q.1 = i)) := by
    funext q
    simp [Function.comp]
  rw [hcomp]
  have hadd := countP_not_add_countP (fun q : ℕ × Emb => decide (q.1 = i)) valid
  omega

theorem simList_mem {n : ℕ} {ids : List String} {valid : List (ℕ × Emb)}
    {i : ℕ} {v : Emb} {x : String} (hx : x ∈ simList n ids valid i v) :
    ∃ q ∈ valid, q.1 ≠ i ∧ x = ids.getD q.1 "" := by
  unfold simList at hx
  have hx2 := List.mem_of_mem_take hx
  obtain ⟨p, hp, rfl⟩ := List.mem_map.mp hx2
  have hp2 := List.mem_filter.mp hp
  have hp3 := (stableSortDesc_perm (fun p : (ℕ × Emb) × ℚ => p.2) _).mem_iff.mp hp2.1
  obtain ⟨q, hq, rfl⟩ := List.mem_map.mp hp3
  exact ⟨q, hq, by simpa using hp2.2, rfl⟩

/-- Claim C7 — shape of the similarity assignment: an item whose recorded
embedding is absent is left untouched by the ranker (so a missing
similar_items key stays missing); with fewer than two valid embeddings no
item is mutated at all; and an item with an embedding, when at least two
valid embeddings exist, receives a neighbor list of length
`min N (number of other valid items)`, hence of length at most `N` and
nonempty whenever `N` is at least one. -/
theorem c7_similar_shape (N : ℕ) (items : List Item)
    (embs : List (Option Emb)) (ids : List String) :
    (∀ i, (embs.get? i = some Option.none ∨ embs.get? i = Option.none) →
      (phase2_assign_similar N items embs ids).get? i = items.get? i) ∧
    ((validPairs 0 embs).length < 2 →
      phase2_assign_similar N items embs ids = items) ∧
    (∀ i v it0, embs.get? i = some (some v) →
      2 ≤ (validPairs 0 embs).length →
      items.get? i = some it0 →
      (phase2_assign_similar N items embs ids).get? i
        = some { it0 with
                 similar_items := some (simList N ids (validPairs 0 embs) i v) } ∧
      (simList N ids (validPairs 0 embs) i v).length
        = min N ((validPairs 0 embs).length - 1) ∧
      (simList N ids (validPairs 0 embs) i v).length ≤ N ∧
      (1 ≤ N → simList N ids (validPairs 0 embs) i v ≠ [])) := by
  refine ⟨?_, ?_, ?_⟩
  · intro i hi
    unfold phase2_assign_similar
    by_cases hv : (validPairs 0 embs).length < 2
    · rw [if_pos hv]
    · rw [if_neg hv]
      rw [assignAll_get?]
      cases hit : items.get? i with
      | none => rfl
      | some it0 =>
        simp only [Option.map_some']
        unfold assignSim
        rw [Nat.zero_add, validPairs_find?_none hi]
  · intro hv
    unfold phase2_assign_similar
    rw [if_pos hv]
  · intro i v it0 hget hv hit
    have hfind := validPairs_find? hget
    refine ⟨?_, ?_, ?_, ?_⟩
    · unfold phase2_assign_similar
      rw [if_neg (by omega)]
      rw [assignAll_get?, hit]
      simp only [Option.map_some']
      unfold assignSim
      rw [Nat.zero_add, hfind]
    · exact simList_length (by simpa using validPairs_countP_one embs 0 i hget)
    · rw [simList_length (by simpa using validPairs_countP_one embs 0 i hget)]
      exact min_le_left _ _
    · intro hN
      rw [← List.length_pos,
        simList_length (by simpa using validPairs_countP_one embs 0 i hget)]
      omega

theorem c7_witness :
    (simList 3 ["a", "b"] (validPairs 0 [some [], some []]) 0 []).length
      = min 3 ((validPairs 0 [some [], some []]).length - 1) :=
  ((c7_similar_shape 3
      [⟨"ta", "m", some "a", Option.none, Option.none, Option.none⟩,
       ⟨"tb", "m", some "b", Option.none, Option.none, Option.none⟩]
      [some [], some []] ["a", "b"]).2.2 0 []
      ⟨"ta", "m", some "a", Option.none, Option.none, Option.none⟩
      rfl (by decide) rfl).2.1

/-- Claim C4 (counterexample): two distinct items whose titles slugify to
the same id both carry the id "t"; the ranker, which excludes self only by
batch position, assigns each of them the list ["t"] — each item's
similar_items contains its own id. -/
theorem c4_cex :
    ((phase2_assign_similar 3
        [⟨"t", "mA", some "t", Option.none, Option.none, Option.none⟩,
         ⟨"t", "mB", some "t", Option.none, Option.none, Option.none⟩]
        [some [], some []] ["t", "t"]).map
        (fun it => (it.id, it.similar_items)))
      = [(some "t", some ["t"]), (some "t", some ["t"])] := rfl

/-- Claim C4 (amended) — self-exclusion is by batch position, not by id:
whenever the batch ids are pairwise distinct (no slug collision), no
freshly assigned similar_items list contains the item's own id; with
colliding ids the own id string can reappear (see the counterexample). -/
theorem c4_self_exclusion_amended (N : ℕ) (items : List Item)
    (embs : List (Option Emb)) (ids : List String)
    (hnd : ids.Nodup) (hlen : embs.length = ids.length)
    (hfresh : ∀ it ∈ items, it.similar_items = Option.none) :
    ∀ i it l, (phase2_assign_similar N items embs ids).get? i = some it →
      it.similar_items = some l → ids.getD i "" ∉ l := by
  intro i it l hget hsim hmem
  unfold phase2_assign_similar at hget
  by_cases hv : (validPairs 0 embs).length < 2
  · rw [if_pos hv] at hget
    rw [hfresh it (List.get?_mem hget)] at hsim
    exact Option.noConfusion hsim
  · rw [if_neg hv] at hget
    rw [assignAll_get?] at hget
    cases hit : items.get? i with
    | none => rw [hit] at hget; exact Option.noConfusion hget
    | some it0 =>
      rw [hit] at hget
      simp only [Option.map_some'] at hget
      have hi0 : it = assignSim N ids (validPairs 0 embs) (0 + i) it0 :=
        (Option.some.inj hget).symm
      rw [Nat.zero_add] at hi0
      unfold assignSim at hi0
      cases hfind : (validPairs 0 embs).find? (fun q => q.1 == i) with
      | none =>
        rw [hfind] at hi0
        rw [hi0, hfresh it0 (List.get?_mem hit)] at hsim
        exact Option.noConfusion hsim
      | some q =>
        rw [hfind] at hi0
        rw [hi0] at hsim
        simp only at hsim
        have hl : l = simList N ids (validPairs 0 embs) i q.2 :=
          (Option.some.inj hsim).symm
        subst hl
        have hq1 : q.1 = i := by simpa using List.find?_some hfind
        have hqmem := List.mem_of_find?_eq_some hfind
        have hiub : i < embs.length := by
          have := validPairs_ub embs 0 hqmem
          omega
        obtain ⟨q2, hq2mem, hq2ne, hxeq⟩ := simList_mem hmem
        have hq2ub : q2.1 < embs.length := by
          have := validPairs_ub embs 0 hq2mem
          omega
        have hilen : i < ids.length := hlen ▸ hiub
        have hq2len : q2.1 < ids.length := hlen ▸ hq2ub
        have h1 : ids.getD i "" = ids.get ⟨i, hilen⟩ := by
          rw [List.getD_eq_getElem?_getD, List.getElem?_eq_getElem hilen]
          simp [List.get_eq_getElem]
        have h2 : ids.getD q2.1 "" = ids.get ⟨q2.1, hq2len⟩ := by
          rw [List.getD_eq_getElem?_getD, List.getElem?_eq_getElem hq2len]
          simp [List.get_eq_getElem]
        rw [h1, h2] at hxeq
        have := (hnd.get_inj_iff).mp hxeq
        have : i = q2.1 := by simpa using this
        exact hq2ne this.symm

theorem c4_witness :
    (phase2_assign_similar 3
        [⟨"ta", "m", some "a", Option.none, Option.none, Option.none⟩,
         ⟨"tb", "m", some "b", Option.none, Option.none, Option.none⟩]
        [some [], some []] ["a", "b"]).get? 0
      = some ⟨"ta", "m", some "a", Option.none, Option.none, some ["b"]⟩ ∧
    (["a", "b"].getD 0 "") ∉ (["b"] : List String) := by
  constructor
  · rfl
  · exact c4_self_exclusion_amended 3
      [⟨"ta", "m", some "a", Option.none, Option.none, Option.none⟩,
       ⟨"tb", "m", some "b", Option.none, Option.none, Option.none⟩]
      [some [], some []] ["a", "b"]
      (by simp) rfl
      (by intro it hit; fin_cases hit <;> rfl)
      0 ⟨"ta", "m", some "a", Option.none, Option.none, some ["b"]⟩ ["b"] rfl rfl

theorem stepItem_cached_tag {Img : Type} (e : ℚ → ℚ) (m : CLIP Img)
    (w : World Img) (prompts : List (String × String)) (K : ℕ) (force : Bool)
    (c : Cache) (cnt : Counts) (item : Item) (v : Emb)
    (hload : c.emb (slugify item.title) = some v)
    (hbranch : force = true ∨ item.visual_tags = Option.none) :
    stepItem e m w prompts K force c cnt item
      = .ok ({ item with
               id := some (slugify item.title),
               visual_tags := some ((zero_shot_from_embedding e m v
                  (prompts.map (fun kv => kv.2)) K).map (prompt_to_label prompts)) },
             some v, c, cnt) := by
  unfold stepItem load_embedding
  rcases hbranch with hb | hb
  · subst hb
    simp [hload]
  · simp [hload, hb]

theorem stepItem_cached_skip {Img : Type} (e : ℚ → ℚ) (m : CLIP Img)
    (w : World Img) (prompts : List (String × String)) (K : ℕ)
    (c : Cache) (cnt : Counts) (item : Item) (v : Emb)
    (hload : c.emb (slugify item.title) = some v)
    (htags : item.visual_tags ≠ Option.none) :
    stepItem e m w prompts K false c cnt item
      = .ok ({ item with id := some (slugify item.title) }, some v, c, cnt) := by
  unfold stepItem load_embedding
  obtain ⟨tv, htv⟩ := Option.ne_none_iff_exists'.mp htags
  simp [hload, htv]

theorem stepItem_cached_shape {Img : Type} (e : ℚ → ℚ) (m : CLIP Img)
    (w : World Img) (prompts : List (String × String)) (K : ℕ) (force : Bool)
    (c : Cache) (cnt : Counts) (item : Item) (v : Emb)
    (hload : c.emb (slugify item.title) = some v) :
    ∃ it2, stepItem e m w prompts K force c cnt item = .ok (it2, some v, c, cnt) := by
  by_cases hf : force = true
  · exact ⟨_, stepItem_cached_tag e m w prompts K force c cnt item v hload (Or.inl hf)⟩
  · by_cases ht : item.visual_tags = Option.none
    · exact ⟨_, stepItem_cached_tag e m w prompts K force c cnt item v hload (Or.inr ht)⟩
    · have hf2 : force = false := by simpa using hf
      subst hf2
      exact ⟨_, stepItem_cached_skip e m w prompts K c cnt item v hload ht⟩

theorem phase1_all_cached {Img : Type} (e : ℚ → ℚ) (m : CLIP Img)
    (w : World Img) (prompts : List (String × String)) (K : ℕ) (force : Bool) :
    ∀ (items : List Item) (c : Cache) (cnt : Counts),
      (∀ it ∈ items, (c.emb (slugify it.title)).isSome) →
      ∃ its es, phase1_fetch_and_tag e m w prompts K force items c cnt
        = .ok (its, es, c, cnt)
  | [], c, cnt, _ => ⟨[], [], rfl⟩
  | item :: rest, c, cnt, hall => by
    obtain ⟨v, hv⟩ := Option.isSome_iff_exists.mp (hall item (List.mem_cons_self _ _))
    obtain ⟨it2, hstep⟩ := stepItem_cached_shape e m w prompts K force c cnt item v hv
    obtain ⟨its, es, hrest⟩ := phase1_all_cached e m w prompts K force rest c cnt
      (fun it hit => hall it (List.mem_cons_of_mem _ hit))
    refine ⟨it2 :: its, some v :: es, ?_⟩
    unfold phase1_fetch_and_tag
    rw [hstep]
    simp [hrest]

/-- Claim C1 — cached-embedding short-circuit: an item whose embedding is
in the cache triggers no manifest fetch and no image fetch and never
rewrites the cache: if the force flag is set or the item has no
visual_tags the tags are recomputed solely from the cached embedding,
otherwise the item is returned unchanged (only its id set); consequently a
run (forced or not) over fully cached items leaves the cache and both
request counters untouched. -/
theorem c1_cached_short_circuit {Img : Type} (e : ℚ → ℚ) (m : CLIP Img)
    (w : World Img) (prompts : List (String × String)) (K : ℕ) :
    (∀ (force : Bool) (c : Cache) (cnt : Counts) (item : Item) (v : Emb),
      c.emb (slugify item.title) = some v →
      (force = true ∨ item.visual_tags = Option.none) →
      stepItem e m w prompts K force c cnt item
        = .ok ({ item with
                 id := some (slugify item.title),
                 visual_tags := some ((zero_shot_from_embedding e m v
                    (prompts.map (fun kv => kv.2)) K).map (prompt_to_label prompts)) },
               some v, c, cnt)) ∧
    (∀ (c : Cache) (cnt : Counts) (item : Item) (v : Emb),
      c.emb (slugify item.title) = some v →
      item.visual_tags ≠ Option.none →
      stepItem e m w prompts K false c cnt item
        = .ok ({ item with id := some (slugify item.title) }, some v, c, cnt)) ∧
    (∀ (force : Bool) (items : List Item) (c : Cache) (cnt : Counts),
      (∀ it ∈ items, (c.emb (slugify it.title)).isSome) →
      ∃ its es, phase1_fetch_and_tag e m w prompts K force items c cnt
        = .ok (its, es, c, cnt)) :=
  ⟨fun force c cnt item v h1 h2 => stepItem_cached_tag e m w prompts K force c cnt item v h1 h2,
   fun c cnt item v h1 h2 => stepItem_cached_skip e m w prompts K c cnt item v h1 h2,
   fun force items c cnt hall => phase1_all_cached e m w prompts K force items c cnt hall⟩

theorem c1_witness :
    ∃ its es,
      phase1_fetch_and_tag (fun _ => (1 : ℚ))
        (⟨fun _ => [], fun _ => [], 1⟩ : CLIP ℕ)
        ⟨fun _ => Option.none, fun _ => Option.none⟩
        [("lab", "pr")] 4 true
        [⟨"t", "mA", Option.none, Option.none, Option.none, Option.none⟩]
        ⟨fun _ => Option.none, fun k => if k = "t" then some [] else Option.none⟩
        ⟨5, 7⟩
      = .ok (its, es,
          ⟨fun _ => Option.none, fun k => if k = "t" then some [] else Option.none⟩,
          ⟨5, 7⟩) :=
  (c1_cached_short_circuit (fun _ => (1 : ℚ))
    (⟨fun _ => [], fun _ => [], 1⟩ : CLIP ℕ)
    ⟨fun _ => Option.none, fun _ => Option.none⟩ [("lab", "pr")] 4).2.2 true
    [⟨"t", "mA", Option.none, Option.none, Option.none, Option.none⟩]
    ⟨fun _ => Option.none, fun k => if k = "t" then some [] else Option.none⟩
    ⟨5, 7⟩
    (by intro it hit; fin_cases hit; rfl)

theorem fetch_manifest_emb {Img : Type} (w : World Img) (c : Cache)
    (cnt : Counts) (u : String) :
    ((fetch_manifest w c cnt u).2.1).emb = c.emb := by
  unfold fetch_manifest
  cases hm : c.man (mkey u) with
  | some d => rfl
  | none =>
    cases hr : w.manifestResp u with
    | some d => rfl
    | none => rfl

/-- Claim C6 (counterexample): a fresh item whose manifest resolves but
whose image fetch fails does not end "with no image_url" — the resolved
URL is recorded on the item before the failed fetch (the item also keeps
no tags and no similar items, and its embedding is recorded absent, but
the claimed absence of image_url is false; a manifest-fetch failure
likewise stores the empty string rather than leaving the key absent). -/
theorem c6_cex :
    (phase1_fetch_and_tag (fun _ => (1 : ℚ))
        (⟨fun _ => [], fun _ => [], 1⟩ : CLIP ℕ)
        ⟨fun _ => some (.dict [("thumbnail", .dict [("@id", .str "http://img")])]),
         fun _ => Option.none⟩
        [("lab", "pr")] 4 false
        [⟨"c", "mC", Option.none, Option.none, Option.none, Option.none⟩]
        ⟨fun _ => Option.none, fun _ => Option.none⟩ ⟨0, 0⟩).map
      (fun r => (r.1.map (fun it => (it.id, it.image_url, it.visual_tags, it.similar_items)),
                 r.2.1, r.2.2.2))
      = .ok ([(some "c", some (.str "http://img"), Option.none, Option.none)],
             [Option.none], ⟨1, 1⟩) := rfl

/-- Claim C6 (amended) — per-item failure tolerance: for a fresh item
(no tags, no similar items) with no cached embedding, (1) any controller
step that records the embedding absent leaves the item with no
visual_tags and no similar_items and writes nothing to the embedding
cache; (2) a manifest-fetch failure sets image_url to the empty string
(not absent) and continues; (3) an image-bytes fetch failure sets
image_url to the resolved URL (not absent) and continues; (4) whenever
the step returns a result the run continues with the remaining items and
does not abort.  (A manifest whose shape makes the resolver raise still
aborts the whole run — claim C2's code bug.) -/
theorem c6_failure_tolerance {Img : Type} (e : ℚ → ℚ) (m : CLIP Img)
    (w : World Img) (prompts : List (String × String)) (K : ℕ) (force : Bool)
    (c : Cache) (cnt : Counts) (item : Item)
    (hemb : c.emb (slugify item.title) = Option.none)
    (htags : item.visual_tags = Option.none)
    (hsim : item.similar_items = Option.none) :
    (∀ it c2 cnt2,
      stepItem e m w prompts K force c cnt item = .ok (it, Option.none, c2, cnt2) →
      it.visual_tags = Option.none ∧ it.similar_items = Option.none ∧
      c2.emb (slugify item.title) = Option.none ∧
      it.id = some (slugify item.title)) ∧
    ((c.man (mkey item.manifest) = Option.none ∧
        w.manifestResp item.manifest = Option.none) →
      stepItem e m w prompts K force c cnt item
        = .ok ({ item with id := some (slugify item.title), image_url := some (.str "") },
               Option.none, c,
               { cnt with manifestFetches := cnt.manifestFetches + 1 })) ∧
    (∀ d u, c.man (mkey item.manifest) = some d → d.truthy = true →
      extract_image_url d = .ok u → u.truthy = true →
      fetch_image w u = Option.none →
      stepItem e m w prompts K force c cnt item
        = .ok ({ item with id := some (slugify item.title), image_url := some u },
               Option.none, c,
               { cnt with imageFetches := cnt.imageFetches + 1 })) ∧
    (∀ rest it2 e2 c2 cnt2 its es c3 cnt3,
      stepItem e m w prompts K force c cnt item = .ok (it2, e2, c2, cnt2) →
      phase1_fetch_and_tag e m w prompts K force rest c2 cnt2 = .ok (its, es, c3, cnt3) →
      phase1_fetch_and_tag e m w prompts K force (item :: rest) c cnt
        = .ok (it2 :: its, e2 :: es, c3, cnt3)) := by
  refine ⟨?_, ?_, ?_, ?_⟩
  · intro it c2 cnt2 hstep
    unfold stepItem load_embedding at hstep
    simp only [hemb] at hstep
    rcases hfm : fetch_manifest w c cnt item.manifest with ⟨mOpt, cc, ccnt⟩
    rw [hfm] at hstep
    have hccemb : cc.emb = c.emb := by
      have h9 := fetch_manifest_emb w c cnt item.manifest
      rw [hfm] at h9
      exact h9
    cases mOpt with
    | none =>
      have hinj := Except.ok.inj hstep
      have h1 := congrArg (fun x : Item × Option Emb × Cache × Counts => x.1) hinj
      have h3 := congrArg (fun x : Item × Option Emb × Cache × Counts => x.2.2.1) hinj
      simp only at h1 h3
      rw [← h1]
      refine ⟨htags, hsim, ?_, rfl⟩
      rw [← h3, hccemb]
      exact hemb
    | some man =>
      dsimp only at hstep
      by_cases htr : man.truthy = false
      · rw [if_pos htr] at hstep
        have hinj := Except.ok.inj hstep
        have h1 := congrArg (fun x : Item × Option Emb × Cache × Counts => x.1) hinj
        have h3 := congrArg (fun x : Item × Option Emb × Cache × Counts => x.2.2.1) hinj
        simp only at h1 h3
        rw [← h1]
        refine ⟨htags, hsim, ?_, rfl⟩
        rw [← h3, hccemb]
        exact hemb
      · rw [if_neg htr] at hstep
        cases hext : extract_image_url man with
        | error er =>
          rw [hext] at hstep
          exact Except.noConfusion hstep
        | ok url =>
          rw [hext] at hstep
          dsimp only at hstep
          by_cases hu : url.truthy = false
          · rw [if_pos hu] at hstep
            have hinj := Except.ok.inj hstep
            have h1 := congrArg (fun x : Item × Option Emb × Cache × Counts => x.1) hinj
            have h3 := congrArg (fun x : Item × Option Emb × Cache × Counts => x.2.2.1) hinj
            simp only at h1 h3
            rw [← h1]
            refine ⟨htags, hsim, ?_, rfl⟩
            rw [← h3, hccemb]
            exact hemb
          · rw [if_neg hu] at hstep
            cases himg : fetch_image w url with
            | none =>
              rw [himg] at hstep
              have hinj := Except.ok.inj hstep
              have h1 := congrArg (fun x : Item × Option Emb × Cache × Counts => x.1) hinj
              have h3 := congrArg (fun x : Item × Option Emb × Cache × Counts => x.2.2.1) hinj
              simp only at h1 h3
              rw [← h1]
              refine ⟨htags, hsim, ?_, rfl⟩
              rw [← h3, hccemb]
              exact hemb
            | some img =>
              rw [himg] at hstep
              have hinj := Except.ok.inj hstep
              have h2 := congrArg (fun x : Item × Option Emb × Cache × Counts => x.2.1) hinj
              simp only at h2
              exact Option.noConfusion h2
  · intro ⟨hmiss, hresp⟩
    unfold stepItem load_embedding fetch_manifest
    simp [hemb, hmiss, hresp]
  · intro d u hman htr hext hu himg
    unfold stepItem load_embedding fetch_manifest
    simp only [hemb, hman]
    rw [hext]
    simp [htr, hu, himg]
  · intro rest it2 e2 c2 cnt2 its es c3 cnt3 hstep hrest
    unfold phase1_fetch_and_tag
    rw [hstep]
    simp [hrest]

theorem c6_witness :
    stepItem (fun _ => (1 : ℚ)) (⟨fun _ => [], fun _ => [], 1⟩ : CLIP ℕ)
      ⟨fun _ => Option.none, fun _ => Option.none⟩ [("lab", "pr")] 4 false
      ⟨fun k => if k = mkey "mC"
          then some (.dict [("thumbnail", .dict [("@id", .str "http://img")])])
          else Option.none,
        fun _ => Option.none⟩ ⟨0, 0⟩
      ⟨"c", "mC", Option.none, Option.none, Option.none, Option.none⟩
      = .ok ({ (⟨"c", "mC", Option.none, Option.none, Option.none, Option.none⟩ : Item) with
               id := some (slugify "c"), image_url := some (.str "http://img") },
             Option.none,
             ⟨fun k => if k = mkey "mC"
                 then some (.dict [("thumbnail", .dict [("@id", .str "http://img")])])
                 else Option.none,
               fun _ => Option.none⟩,
             ⟨0, 1⟩) :=
  (c6_failure_tolerance (fun _ => (1 : ℚ)) (⟨fun _ => [], fun _ => [], 1⟩ : CLIP ℕ)
    ⟨fun _ => Option.none, fun _ => Option.none⟩ [("lab", "pr")] 4 false
    ⟨fun k => if k = mkey "mC"
        then some (.dict [("thumbnail", .dict [("@id", .str "http://img")])])
        else Option.none,
      fun _ => Option.none⟩ ⟨0, 0⟩
    ⟨"c", "mC", Option.none, Option.none, Option.none, Option.none⟩
    rfl rfl rfl).2.2.1
    (.dict [("thumbnail", .dict [("@id", .str "http://img")])]) (.str "http://img")
    rfl rfl rfl rfl rfl

attribute [ext] Item

theorem insertMan_self (c : Cache) (k : String) (d : PyVal) :
    (insertMan c k d).man k = some d := by
  unfold insertMan
  simp

theorem insertMan_other (c : Cache) (k : String) (d : PyVal) (k2 : String)
    (h : k2 ≠ k) : (insertMan c k d).man k2 = c.man k2 := by
  unfold insertMan
  simp [h]

theorem save_embedding_self (c : Cache) (k : String) (v : Emb) :
    (save_embedding c k v).emb k = some v := by
  unfold save_embedding
  simp

theorem save_embedding_other (c : Cache) (k : String) (v : Emb) (k2 : String)
    (h : k2 ≠ k) : (save_embedding c k v).emb k2 = c.emb k2 := by
  unfold save_embedding
  simp [h]

theorem fetch_manifest_man {Img : Type} (w : World Img) (c : Cache)
    (cnt : Counts) (u : String) :
    (∀ k d, c.man k = some d → ((fetch_manifest w c cnt u).2.1).man k = some d) ∧
    (∀ k, ((fetch_manifest w c cnt u).2.1).man k ≠ c.man k →
      k = mkey u ∧ c.man k = Option.none ∧
      ∃ d, w.manifestResp u = some d ∧
        ((fetch_manifest w c cnt u).2.1).man k = some d) := by
  unfold fetch_manifest
  cases hm : c.man (mkey u) with
  | some d => exact ⟨fun k d2 h => h, fun k h => absurd rfl h⟩
  | none =>
    cases hr : w.manifestResp u with
    | some d =>
      constructor
      · intro k d2 h
        by_cases hk : k = mkey u
        · subst hk
          rw [hm] at h
          exact Option.noConfusion h
        · rw [insertMan_other c (mkey u) d k hk]
          exact h
      · intro k h
        by_cases hk : k = mkey u
        · subst hk
          exact ⟨rfl, hm, d, rfl, insertMan_self c (mkey u) d⟩
        · exact absurd (insertMan_other c (mkey u) d k hk) h
    | none => exact ⟨fun k d2 h => h, fun k h => absurd rfl h⟩

theorem stepItem_manifest_fail {Img : Type} (e : ℚ → ℚ) (m : CLIP Img)
    (w : World Img) (prompts : List (String × String)) (K : ℕ) (force : Bool)
    (c : Cache) (cnt : Counts) (item : Item) (cc : Cache) (ccnt : Counts)
    (hemb : c.emb (slugify item.title) = Option.none)
    (hfm : fetch_manifest w c cnt item.manifest = (Option.none, cc, ccnt)) :
    stepItem e m w prompts K force c cnt item
      = .ok ({ item with id := some (slugify item.title), image_url := some (.str "") },
             Option.none, cc, ccnt) := by
  unfold stepItem load_embedding
  simp only [hemb]
  rw [hfm]

theorem stepItem_manifest_falsy {Img : Type} (e : ℚ → ℚ) (m : CLIP Img)
    (w : World Img) (prompts : List (String × String)) (K : ℕ) (force : Bool)
    (c : Cache) (cnt : Counts) (item : Item) (d : PyVal) (cc : Cache) (ccnt : Counts)
    (hemb : c.emb (slugify item.title) = Option.none)
    (hfm : fetch_manifest w c cnt item.manifest = (some d, cc, ccnt))
    (htr : d.truthy = false) :
    stepItem e m w prompts K force c cnt item
      = .ok ({ item with id := some (slugify item.title), image_url := some (.str "") },
             Option.none, cc, ccnt) := by
  unfold stepItem load_embedding
  simp only [hemb]
  rw [hfm]
  dsimp only
  rw [if_pos htr]

theorem stepItem_url_falsy {Img : Type} (e : ℚ → ℚ) (m : CLIP Img)
    (w : World Img) (prompts : List (String × String)) (K : ℕ) (force : Bool)
    (c : Cache) (cnt : Counts) (item : Item) (d u : PyVal) (cc : Cache) (ccnt : Counts)
    (hemb : c.emb (slugify item.title) = Option.none)
    (hfm : fetch_manifest w c cnt item.manifest = (some d, cc, ccnt))
    (htr : d.truthy = true)
    (hext : extract_image_url d = .ok u)
    (hu : u.truthy = false) :
    stepItem e m w prompts K force c cnt item
      = .ok ({ item with id := some (slugify item.title), image_url := some u },
             Option.none, cc, ccnt) := by
  unfold stepItem load_embedding
  simp only [hemb]
  rw [hfm]
  dsimp only
  rw [if_neg (by simp [htr]), hext]
  dsimp only
  rw [if_pos hu]

theorem stepItem_image_fail {Img : Type} (e : ℚ → ℚ) (m : CLIP Img)
    (w : World Img) (prompts : List (String × String)) (K : ℕ) (force : Bool)
    (c : Cache) (cnt : Counts) (item : Item) (d u : PyVal) (cc : Cache) (ccnt : Counts)
    (hemb : c.emb (slugify item.title) = Option.none)
    (hfm : fetch_manifest w c cnt item.manifest = (some d, cc, ccnt))
    (htr : d.truthy = true)
    (hext : extract_image_url d = .ok u)
    (hu : u.truthy = true)
    (himg : fetch_image w u = Option.none) :
    stepItem e m w prompts K force c cnt item
      = .ok ({ item with id := some (slugify item.title), image_url := some u },
             Option.none, cc,
             { ccnt with imageFetches := ccnt.imageFetches + 1 }) := by
  unfold stepItem load_embedding
  simp only [hemb]
  rw [hfm]
  dsimp only
  rw [if_neg (by simp [htr]), hext]
  dsimp only
  rw [if_neg (by simp [hu]), himg]

theorem stepItem_success {Img : Type} (e : ℚ → ℚ) (m : CLIP Img)
    (w : World Img) (prompts : List (String × String)) (K : ℕ) (force : Bool)
    (c : Cache) (cnt : Counts) (item : Item) (d u : PyVal) (cc : Cache)
    (ccnt : Counts) (img : Img)
    (hemb : c.emb (slugify item.title) = Option.none)
    (hfm : fetch_manifest w c cnt item.manifest = (some d, cc, ccnt))
    (htr : d.truthy = true)
    (hext : extract_image_url d = .ok u)
    (hu : u.truthy = true)
    (himg : fetch_image w u = some img) :
    stepItem e m w prompts K force c cnt item
      = .ok ({ item with
               id := some (slugify item.title)
               image_url := some u
               visual_tags := some ((zero_shot e m img
                  (prompts.map (fun kv => kv.2)) K).map (prompt_to_label prompts)) },
             some (get_embedding m img),
             save_embedding cc (slugify item.title) (get_embedding m img),
             { ccnt with imageFetches := ccnt.imageFetches + 1 }) := by
  unfold stepItem load_embedding
  simp only [hemb]
  rw [hfm]
  dsimp only
  rw [if_neg (by simp [htr]), hext]
  dsimp only
  rw [if_neg (by simp [hu]), himg]

theorem stepItem_extract_err {Img : Type} (e : ℚ → ℚ) (m : CLIP Img)
    (w : World Img) (prompts : List (String × String)) (K : ℕ) (force : Bool)
    (c : Cache) (cnt : Counts) (item : Item) (d : PyVal) (cc : Cache)
    (ccnt : Counts) (er : PyErr)
    (hemb : c.emb (slugify item.title) = Option.none)
    (hfm : fetch_manifest w c cnt item.manifest = (some d, cc, ccnt))
    (htr : d.truthy = true)
    (hext : extract_image_url d = .error er) :
    stepItem e m w prompts K force c cnt item = .error er := by
  unfold stepItem load_embedding
  simp only [hemb]
  rw [hfm]
  dsimp only
  rw [if_neg (by simp [htr]), hext]

theorem fetch_manifest_cases {Img : Type} (w : World Img) (c : Cache)
    (cnt : Counts) (u : String) :
    (∃ d, c.man (mkey u) = some d ∧ fetch_manifest w c cnt u = (some d, c, cnt)) ∨
    (c.man (mkey u) = Option.none ∧ ∃ d, w.manifestResp u = some d ∧
      fetch_manifest w c cnt u = (some d, insertMan c (mkey u) d,
        { cnt with manifestFetches := cnt.manifestFetches + 1 })) ∨
    (c.man (mkey u) = Option.none ∧ w.manifestResp u = Option.none ∧
      fetch_manifest w c cnt u = (Option.none, c,
        { cnt with manifestFetches := cnt.manifestFetches + 1 })) := by
  unfold fetch_manifest
  cases hm : c.man (mkey u) with
  | some d => exact Or.inl ⟨d, rfl, rfl⟩
  | none =>
    cases hr : w.manifestResp u with
    | some d => exact Or.inr (Or.inl ⟨rfl, d, rfl, rfl⟩)
    | none => exact Or.inr (Or.inr ⟨rfl, rfl, rfl⟩)

theorem stepItem_core {Img : Type} {e : ℚ → ℚ} {m : CLIP Img}
    {w : World Img} {prompts : List (String × String)} {K : ℕ} {force : Bool}
    {c : Cache} {cnt : Counts} {item it : Item} {e? : Option Emb}
    {c2 : Cache} {cnt2 : Counts}
    (hstep : stepItem e m w prompts K force c cnt item = .ok (it, e?, c2, cnt2)) :
    it.title = item.title ∧ it.manifest = item.manifest ∧
    (∀ k v2, c.emb k = some v2 → c2.emb k = some v2) ∧
    (∀ k d2, c.man k = some d2 → c2.man k = some d2) ∧
    (∀ k, c2.emb k ≠ c.emb k → k = slugify item.title) ∧
    (∀ k, c2.man k ≠ c.man k → k = mkey item.manifest ∧ c.man k = Option.none ∧
      ∃ d2, w.manifestResp item.manifest = some d2 ∧ c2.man k = some d2) ∧
    (∀ v, e? = some v → c2.emb (slugify item.title) = some v) ∧
    (e? = Option.none → c2.emb (slugify item.title) = Option.none) := by
  cases hembc : c.emb (slugify item.title) with
  | some v0 =>
    have hres : ∃ it2, stepItem e m w prompts K force c cnt item
        = .ok (it2, some v0, c, cnt) ∧ it2.title = item.title ∧ it2.manifest = item.manifest := by
      by_cases hb : force = true ∨ item.visual_tags = Option.none
      · exact ⟨_, stepItem_cached_tag e m w prompts K force c cnt item v0 hembc hb, rfl, rfl⟩
      · push_neg at hb
        have hf : force = false := by
          cases force
          · rfl
          · exact absurd rfl hb.1
        subst hf
        exact ⟨_, stepItem_cached_skip e m w prompts K c cnt item v0 hembc hb.2, rfl, rfl⟩
    obtain ⟨it2, hs2, ht2, hm2⟩ := hres
    rw [hs2] at hstep
    have hinj := Except.ok.inj hstep
    have h_it := congrArg (fun x : Item × Option Emb × Cache × Counts => x.1) hinj
    have h_c := congrArg (fun x : Item × Option Emb × Cache × Counts => x.2.2.1) hinj
    have h_e := congrArg (fun x : Item × Option Emb × Cache × Counts => x.2.1) hinj
    simp only at h_it h_c h_e
    subst h_it
    subst h_c
    refine ⟨ht2, hm2, fun k v2 h => h, fun k d2 h => h,
      fun k h => absurd rfl h, fun k h => absurd rfl h, ?_, ?_⟩
    · intro v hv
      rw [← h_e] at hv
      rw [hembc]
      exact hv
    · intro hv
      rw [← h_e] at hv
      exact Option.noConfusion hv
  | none =>
    rcases fetch_manifest_cases w c cnt item.manifest with
      ⟨d, hm, hfm⟩ | ⟨hm, d, hr, hfm⟩ | ⟨hm, hr, hfm⟩
    · -- cache hit: document d, cache unchanged
      have hemb2 : (insertMan c (mkey item.manifest) d).emb = c.emb := rfl
      by_cases htr : d.truthy = true
      · cases hext : extract_image_url d with
        | error er =>
          rw [stepItem_extract_err e m w prompts K force c cnt item d c cnt er
            hembc hfm htr hext] at hstep
          exact Except.noConfusion hstep
        | ok url =>
          by_cases hu : url.truthy = true
          · cases himg : fetch_image w url with
            | none =>
              rw [stepItem_image_fail e m w prompts K force c cnt item d url c cnt
                hembc hfm htr hext hu himg] at hstep
              have hinj := Except.ok.inj hstep
              have h_it := congrArg (fun x : Item × Option Emb × Cache × Counts => x.1) hinj
              have h_c := congrArg (fun x : Item × Option Emb × Cache × Counts => x.2.2.1) hinj
              have h_e := congrArg (fun x : Item × Option Emb × Cache × Counts => x.2.1) hinj
              simp only at h_it h_c h_e
              subst h_it
              subst h_c
              refine ⟨rfl, rfl, fun k v2 h => h, fun k d2 h => h,
                fun k h => absurd rfl h, fun k h => absurd rfl h, ?_, fun _ => hembc⟩
              intro v hv
              rw [← h_e] at hv
              exact Option.noConfusion hv
            | some img =>
              rw [stepItem_success e m w prompts K force c cnt item d url c cnt img
                hembc hfm htr hext hu himg] at hstep
              have hinj := Except.ok.inj hstep
              have h_it := congrArg (fun x : Item × Option Emb × Cache × Counts => x.1) hinj
              have h_c := congrArg (fun x : Item × Option Emb × Cache × Counts => x.2.2.1) hinj
              have h_e := congrArg (fun x : Item × Option Emb × Cache × Counts => x.2.1) hinj
              simp only at h_it h_c h_e
              subst h_it
              subst h_c
              refine ⟨rfl, rfl, ?_, fun k d2 h => h, ?_, fun k h => absurd rfl h, ?_, ?_⟩
              · intro k v2 h
                by_cases hk : k = slugify item.title
                · subst hk
                  rw [hembc] at h
                  exact Option.noConfusion h
                · rw [save_embedding_other c (slugify item.title) _ k hk]
                  exact h
              · intro k h
                by_cases hk : k = slugify item.title
                · exact hk
                · exact absurd (save_embedding_other c (slugify item.title) _ k hk) h
              · intro v hv
                rw [← h_e] at hv
                have hvv := Option.some.inj hv
                rw [← hvv]
                exact save_embedding_self _ _ _
              · intro hv
                rw [← h_e] at hv
                exact Option.noConfusion hv
          · have hu2 : url.truthy = false := by simpa using hu
            rw [stepItem_url_falsy e m w prompts K force c cnt item d url c cnt
              hembc hfm htr hext hu2] at hstep
            have hinj := Except.ok.inj hstep
            have h_it := congrArg (fun x : Item × Option Emb × Cache × Counts => x.1) hinj
            have h_c := congrArg (fun x : Item × Option Emb × Cache × Counts => x.2.2.1) hinj
            have h_e := congrArg (fun x : Item × Option Emb × Cache × Counts => x.2.1) hinj
            simp only at h_it h_c h_e
            subst h_it
            subst h_c
            refine ⟨rfl, rfl, fun k v2 h => h, fun k d2 h => h,
              fun k h => absurd rfl h, fun k h => absurd rfl h, ?_, fun _ => hembc⟩
            intro v hv
            rw [← h_e] at hv
            exact Option.noConfusion hv
      · have htr2 : d.truthy = false := by simpa using htr
        rw [stepItem_manifest_falsy e m w prompts K force c cnt item d c cnt
          hembc hfm htr2] at hstep
        have hinj := Except.ok.inj hstep
        have h_it := congrArg (fun x : Item × Option Emb × Cache × Counts => x.1) hinj
        have h_c := congrArg (fun x : Item × Option Emb × Cache × Counts => x.2.2.1) hinj
        have h_e := congrArg (fun x : Item × Option Emb × Cache × Counts => x.2.1) hinj
        simp only at h_it h_c h_e
        subst h_it
        subst h_c
        refine ⟨rfl, rfl, fun k v2 h => h, fun k d2 h => h,
          fun k h => absurd rfl h, fun k h => absurd rfl h, ?_, fun _ => hembc⟩
        intro v hv
        rw [← h_e] at hv
        exact Option.noConfusion hv
    · -- cache miss, network success: cache gains the document at its key
      have hccm : ∀ k d2, c.man k = some d2 →
          (insertMan c (mkey item.manifest) d).man k = some d2 := by
        intro k d2 h
        by_cases hk : k = mkey item.manifest
        · subst hk
          rw [hm] at h
          exact Option.noConfusion h
        · rw [insertMan_other c _ d k hk]
          exact h
      have hccd : ∀ k, (insertMan c (mkey item.manifest) d).man k ≠ c.man k →
          k = mkey item.manifest ∧ c.man k = Option.none ∧
          ∃ d2, w.manifestResp item.manifest = some d2 ∧
            (insertMan c (mkey item.manifest) d).man k = some d2 := by
        intro k h
        by_cases hk : k = mkey item.manifest
        · subst hk
          exact ⟨rfl, hm, d, hr, insertMan_self c _ d⟩
        · exact absurd (insertMan_other c _ d k hk) h
      by_cases htr : d.truthy = true
      · cases hext : extract_image_url d with
        | error er =>
          rw [stepItem_extract_err e m w prompts K force c cnt item d _ _ er
            hembc hfm htr hext] at hstep
          exact Except.noConfusion hstep
        | ok url =>
          by_cases hu : url.truthy = true
          · cases himg : fetch_image w url with
            | none =>
              rw [stepItem_image_fail e m w prompts K force c cnt item d url _ _
                hembc hfm htr hext hu himg] at hstep
              have hinj := Except.ok.inj hstep
              have h_it := congrArg (fun x : Item × Option Emb × Cache × Counts => x.1) hinj
              have h_c := congrArg (fun x : Item × Option Emb × Cache × Counts => x.2.2.1) hinj
              have h_e := congrArg (fun x : Item × Option Emb × Cache × Counts => x.2.1) hinj
              simp only at h_it h_c h_e
              subst h_it
              subst h_c
              refine ⟨rfl, rfl, fun k v2 h => h, hccm, fun k h => absurd rfl h, hccd, ?_, fun _ => hembc⟩
              intro v hv
              rw [← h_e] at hv
              exact Option.noConfusion hv
            | some img =>
              rw [stepItem_success e m w prompts K force c cnt item d url _ _ img
                hembc hfm htr hext hu himg] at hstep
              have hinj := Except.ok.inj hstep
              have h_it := congrArg (fun x : Item × Option Emb × Cache × Counts => x.1) hinj
              have h_c := congrArg (fun x : Item × Option Emb × Cache × Counts => x.2.2.1) hinj
              have h_e := congrArg (fun x : Item × Option Emb × Cache × Counts => x.2.1) hinj
              simp only at h_it h_c h_e
              subst h_it
              subst h_c
              refine ⟨rfl, rfl, ?_, hccm, ?_, hccd, ?_, ?_⟩
              · intro k v2 h
                by_cases hk : k = slugify item.title
                · subst hk
                  rw [hembc] at h
                  exact Option.noConfusion h
                · rw [save_embedding_other _ (slugify item.title) _ k hk]
                  exact h
              · intro k h
                by_cases hk : k = slugify item.title
                · exact hk
                · exact absurd (save_embedding_other _ (slugify item.title) _ k hk) h
              · intro v hv
                rw [← h_e] at hv
                have hvv := Option.some.inj hv
                rw [← hvv]
                exact save_embedding_self _ _ _
              · intro hv
                rw [← h_e] at hv
                exact Option.noConfusion hv
          · have hu2 : url.truthy = false := by simpa using hu
            rw [stepItem_url_falsy e m w prompts K force c cnt item d url _ _
              hembc hfm htr hext hu2] at hstep
            have hinj := Except.ok.inj hstep
            have h_it := congrArg (fun x : Item × Option Emb × Cache × Counts => x.1) hinj
            have h_c := congrArg (fun x : Item × Option Emb × Cache × Counts => x.2.2.1) hinj
            have h_e := congrArg (fun x : Item × Option Emb × Cache × Counts => x.2.1) hinj
            simp only at h_it h_c h_e
            subst h_it
            subst h_c
            refine ⟨rfl, rfl, fun k v2 h => h, hccm, fun k h => absurd rfl h, hccd, ?_, fun _ => hembc⟩
            intro v hv
            rw [← h_e] at hv
            exact Option.noConfusion hv
      · have htr2 : d.truthy = false := by simpa using htr
        rw [stepItem_manifest_falsy e m w prompts K force c cnt item d _ _
          hembc hfm htr2] at hstep
        have hinj := Except.ok.inj hstep
        have h_it := congrArg (fun x : Item × Option Emb × Cache × Counts => x.1) hinj
        have h_c := congrArg (fun x : Item × Option Emb × Cache × Counts => x.2.2.1) hinj
        have h_e := congrArg (fun x : Item × Option Emb × Cache × Counts => x.2.1) hinj
        simp only at h_it h_c h_e
        subst h_it
        subst h_c
        refine ⟨rfl, rfl, fun k v2 h => h, hccm, fun k h => absurd rfl h, hccd, ?_, fun _ => hembc⟩
        intro v hv
        rw [← h_e] at hv
        exact Option.noConfusion hv
    · -- cache miss, network failure: nothing written
      rw [stepItem_manifest_fail e m w prompts K force c cnt item c _
        hembc hfm] at hstep
      have hinj := Except.ok.inj hstep
      have h_it := congrArg (fun x : Item × Option Emb × Cache × Counts => x.1) hinj
      have h_c := congrArg (fun x : Item × Option Emb × Cache × Counts => x.2.2.1) hinj
      have h_e := congrArg (fun x : Item × Option Emb × Cache × Counts => x.2.1) hinj
      simp only at h_it h_c h_e
      subst h_it
      subst h_c
      refine ⟨rfl, rfl, fun k v2 h => h, fun k d2 h => h,
        fun k h => absurd rfl h, fun k h => absurd rfl h, ?_, fun _ => hembc⟩
      intro v hv
      rw [← h_e] at hv
      exact Option.noConfusion hv

theorem phase1_core {Img : Type} (e : ℚ → ℚ) (m : CLIP Img) (w : World Img)
    (prompts : List (String × String)) (K : ℕ) (force : Bool) :
    ∀ (items : List Item) (c : Cache) (cnt : Counts)
      (its : List Item) (es : List (Option Emb)) (c2 : Cache) (cnt2 : Counts),
      phase1_fetch_and_tag e m w prompts K force items c cnt = .ok (its, es, c2, cnt2) →
      (∀ k v2, c.emb k = some v2 → c2.emb k = some v2) ∧
      (∀ k d2, c.man k = some d2 → c2.man k = some d2) ∧
      (∀ k, c2.emb k ≠ c.emb k → ∃ it ∈ items, k = slugify it.title) ∧
      (∀ k, c2.man k ≠ c.man k → ∃ it ∈ items, k = mkey it.manifest ∧
        ∃ d2, w.manifestResp it.manifest = some d2)
  | [], c, cnt, its, es, c2, cnt2, h => by
    have hinj := Except.ok.inj h
    have h_c := congrArg
      (fun x : List Item × List (Option Emb) × Cache × Counts => x.2.2.1) hinj
    simp only at h_c
    subst h_c
    exact ⟨fun k v2 hh => hh, fun k d2 hh => hh,
      fun k hh => absurd rfl hh, fun k hh => absurd rfl hh⟩
  | item :: rest, c, cnt, its, es, c2, cnt2, h => by
    unfold phase1_fetch_and_tag at h
    cases hstep : stepItem e m w prompts K force c cnt item with
    | error er =>
      rw [hstep] at h
      exact Except.noConfusion h
    | ok r =>
      rcases r with ⟨it1, e1, cm, cntm⟩
      rw [hstep] at h
      dsimp only at h
      cases hrest : phase1_fetch_and_tag e m w prompts K force rest cm cntm with
      | error er =>
        rw [hrest] at h
        exact Except.noConfusion h
      | ok r2 =>
        rcases r2 with ⟨its2, es2, c3, cnt3⟩
        rw [hrest] at h
        dsimp only at h
        have hinj := Except.ok.inj h
        have h_c := congrArg
          (fun x : List Item × List (Option Emb) × Cache × Counts => x.2.2.1) hinj
        simp only at h_c
        subst h_c
        obtain ⟨_, _, hm1, hm2, hd1, hd2, _, _⟩ := stepItem_core hstep
        obtain ⟨hm1r, hm2r, hd1r, hd2r⟩ :=
          phase1_core e m w prompts K force rest cm cntm its2 es2 c3 cnt3 hrest
        refine ⟨fun k v2 hh => hm1r k v2 (hm1 k v2 hh),
          fun k d2 hh => hm2r k d2 (hm2 k d2 hh), ?_, ?_⟩
        · intro k hh
          by_cases hk : c3.emb k = cm.emb k
          · rw [hk] at hh
            exact ⟨item, List.mem_cons_self _ _, hd1 k hh⟩
          · obtain ⟨it3, hmem, hsl⟩ := hd1r k hk
            exact ⟨it3, List.mem_cons_of_mem _ hmem, hsl⟩
        · intro k hh
          by_cases hk : c3.man k = cm.man k
          · rw [hk] at hh
            obtain ⟨h1, _, d2, hresp, _⟩ := hd2 k hh
            exact ⟨item, List.mem_cons_self _ _, h1, d2, hresp⟩
          · obtain ⟨it3, hmem, hmk, hd⟩ := hd2r k hk
            exact ⟨it3, List.mem_cons_of_mem _ hmem, hmk, hd⟩

def sameCore (a b : Item) : Prop :=
  a.title = b.title ∧ a.manifest = b.manifest ∧ a.id = b.id ∧
  a.image_url = b.image_url ∧ a.visual_tags = b.visual_tags

theorem sameCore_refl : ∀ (l : List Item), List.Forall₂ sameCore l l
  | [] => List.Forall₂.nil
  | a :: rest => List.Forall₂.cons ⟨rfl, rfl, rfl, rfl, rfl⟩ (sameCore_refl rest)

theorem assignSim_sameCore (n : ℕ) (ids : List String)
    (valid : List (ℕ × Emb)) (i : ℕ) (item : Item) :
    sameCore (assignSim n ids valid i item) item := by
  unfold assignSim
  cases valid.find? (fun q => q.1 == i) with
  | none => exact ⟨rfl, rfl, rfl, rfl, rfl⟩
  | some q => exact ⟨rfl, rfl, rfl, rfl, rfl⟩

theorem assignAll_sameCore (n : ℕ) (ids : List String) (valid : List (ℕ × Emb)) :
    ∀ (items : List Item) (k : ℕ),
      List.Forall₂ sameCore (assignAll n ids valid k items) items
  | [], _ => List.Forall₂.nil
  | item :: rest, k =>
    List.Forall₂.cons (assignSim_sameCore n ids valid k item)
      (assignAll_sameCore n ids valid rest (k + 1))

theorem phase2_sameCore (n : ℕ) (items : List Item)
    (embeddings : List (Option Emb)) (ids : List String) :
    List.Forall₂ sameCore (phase2_assign_similar n items embeddings ids) items := by
  unfold phase2_assign_similar
  by_cases hv : (validPairs 0 embeddings).length < 2
  · rw [if_pos hv]
    exact sameCore_refl items
  · rw [if_neg hv]
    exact assignAll_sameCore n ids _ items 0

theorem fetch_manifest_hit {Img : Type} (w : World Img) (c : Cache)
    (cnt : Counts) (u : String) (d : PyVal) (h : c.man (mkey u) = some d) :
    fetch_manifest w c cnt u = (some d, c, cnt) := by
  unfold fetch_manifest
  rw [h]

theorem fetch_manifest_missfail {Img : Type} (w : World Img) (c : Cache)
    (cnt : Counts) (u : String) (h1 : c.man (mkey u) = Option.none)
    (h2 : w.manifestResp u = Option.none) :
    fetch_manifest w c cnt u
      = (Option.none, c, { cnt with manifestFetches := cnt.manifestFetches + 1 }) := by
  unfold fetch_manifest
  rw [h1]
  dsimp only
  rw [h2]

theorem item_id_update_eq {it2 : Item} {s : String} (h : it2.id = some s) :
    { it2 with id := some s } = it2 := by
  cases it2 with
  | mk t mf i iu vt si =>
    simp only at h
    simp [h]

theorem item_id_url_update_eq {it2 : Item} {s : String} {u : PyVal}
    (h1 : it2.id = some s) (h2 : it2.image_url = some u) :
    { it2 with id := some s, image_url := some u } = it2 := by
  cases it2 with
  | mk t mf i iu vt si =>
    simp only at h1 h2
    simp [h1, h2]

theorem stepItem_replay {Img : Type} (e : ℚ → ℚ) (m : CLIP Img) (w : World Img)
    (prompts : List (String × String)) (K : ℕ)
    (c cF : Cache) (cnt cntR cnt2 : Counts) (item it it2 : Item)
    (e? : Option Emb) (c2 : Cache)
    (hstep : stepItem e m w prompts K false c cnt item = .ok (it, e?, c2, cntR))
    (hcore : sameCore it2 it)
    (hsome : ∀ v, e? = some v → cF.emb (slugify item.title) = some v)
    (hnone : e? = Option.none → cF.emb (slugify item.title) = Option.none)
    (hmanF : ∀ k d, c2.man k = some d → cF.man k = some d)
    (hmanN : c2.man (mkey item.manifest) = Option.none →
      w.manifestResp item.manifest = Option.none →
      cF.man (mkey item.manifest) = Option.none) :
    ∃ cntX, stepItem e m w prompts K false cF cnt2 it2 = .ok (it2, e?, cF, cntX) := by
  obtain ⟨hct, hcm, hci, hcu, hcv⟩ := hcore
  cases hembc : c.emb (slugify item.title) with
  | some v0 =>
    by_cases hb : (false : Bool) = true ∨ item.visual_tags = Option.none
    · rw [stepItem_cached_tag e m w prompts K false c cnt item v0 hembc hb] at hstep
      have hinj := Except.ok.inj hstep
      have h_it := congrArg (fun x : Item × Option Emb × Cache × Counts => x.1) hinj
      have h_e := congrArg (fun x : Item × Option Emb × Cache × Counts => x.2.1) hinj
      simp only at h_it h_e
      have ht2 : it2.title = item.title := by rw [hct, ← h_it]
      have hload2 : cF.emb (slugify it2.title) = some v0 := by
        rw [ht2]
        exact hsome v0 h_e.symm
      have htags2 : it2.visual_tags ≠ Option.none := by
        rw [hcv, ← h_it]
        simp
      have hid2 : it2.id = some (slugify it2.title) := by
        rw [ht2, hci, ← h_it]
      refine ⟨cnt2, ?_⟩
      rw [stepItem_cached_skip e m w prompts K cF cnt2 it2 v0 hload2 htags2,
        item_id_update_eq hid2, h_e]
    · push_neg at hb
      rw [stepItem_cached_skip e m w prompts K c cnt item v0 hembc hb.2] at hstep
      have hinj := Except.ok.inj hstep
      have h_it := congrArg (fun x : Item × Option Emb × Cache × Counts => x.1) hinj
      have h_e := congrArg (fun x : Item × Option Emb × Cache × Counts => x.2.1) hinj
      simp only at h_it h_e
      have ht2 : it2.title = item.title := by rw [hct, ← h_it]
      have hload2 : cF.emb (slugify it2.title) = some v0 := by
        rw [ht2]
        exact hsome v0 h_e.symm
      have htags2 : it2.visual_tags ≠ Option.none := by
        rw [hcv, ← h_it]
        exact hb.2
      have hid2 : it2.id = some (slugify it2.title) := by
        rw [ht2, hci, ← h_it]
      refine ⟨cnt2, ?_⟩
      rw [stepItem_cached_skip e m w prompts K cF cnt2 it2 v0 hload2 htags2,
        item_id_update_eq hid2, h_e]
  | none =>
    rcases fetch_manifest_cases w c cnt item.manifest with
      ⟨d, hm, hfm⟩ | ⟨hm, d, hr, hfm⟩ | ⟨hm, hr, hfm⟩
    · -- run 1 read the document from the cache
      by_cases htr : d.truthy = true
      · cases hext : extract_image_url d with
        | error er =>
          rw [stepItem_extract_err e m w prompts K false c cnt item d c cnt er
            hembc hfm htr hext] at hstep
          exact Except.noConfusion hstep
        | ok url =>
          by_cases hu : url.truthy = true
          · cases himg : fetch_image w url with
            | none =>
              rw [stepItem_image_fail e m w prompts K false c cnt item d url c cnt
                hembc hfm htr hext hu himg] at hstep
              have hinj := Except.ok.inj hstep
              have h_it := congrArg (fun x : Item × Option Emb × Cache × Counts => x.1) hinj
              have h_e := congrArg (fun x : Item × Option Emb × Cache × Counts => x.2.1) hinj
              have h_c := congrArg (fun x : Item × Option Emb × Cache × Counts => x.2.2.1) hinj
              simp only at h_it h_e h_c
              have ht2 : it2.title = item.title := by rw [hct, ← h_it]
              have hmf2 : it2.manifest = item.manifest := by rw [hcm, ← h_it]
              have hembF : cF.emb (slugify it2.title) = Option.none := by
                rw [ht2]
                exact hnone h_e.symm
              have hkey : cF.man (mkey it2.manifest) = some d := by
                rw [hmf2]
                exact hmanF _ _ (h_c ▸ hm)
              have hid2 : it2.id = some (slugify it2.title) := by
                rw [ht2, hci, ← h_it]
              have hurl2 : it2.image_url = some url := by rw [hcu, ← h_it]
              refine ⟨{ cnt2 with imageFetches := cnt2.imageFetches + 1 }, ?_⟩
              rw [stepItem_image_fail e m w prompts K false cF cnt2 it2 d url cF cnt2
                hembF (fetch_manifest_hit w cF cnt2 it2.manifest d hkey) htr hext hu himg,
                item_id_url_update_eq hid2 hurl2, h_e]
            | some img =>
              rw [stepItem_success e m w prompts K false c cnt item d url c cnt img
                hembc hfm htr hext hu himg] at hstep
              have hinj := Except.ok.inj hstep
              have h_it := congrArg (fun x : Item × Option Emb × Cache × Counts => x.1) hinj
              have h_e := congrArg (fun x : Item × Option Emb × Cache × Counts => x.2.1) hinj
              simp only at h_it h_e
              have ht2 : it2.title = item.title := by rw [hct, ← h_it]
              have hload2 : cF.emb (slugify it2.title) = some (get_embedding m img) := by
                rw [ht2]
                exact hsome _ h_e.symm
              have htags2 : it2.visual_tags ≠ Option.none := by
                rw [hcv, ← h_it]
                simp
              have hid2 : it2.id = some (slugify it2.title) := by
                rw [ht2, hci, ← h_it]
              refine ⟨cnt2, ?_⟩
              rw [stepItem_cached_skip e m w prompts K cF cnt2 it2 _ hload2 htags2,
                item_id_update_eq hid2, h_e]
          · have hu2 : url.truthy = false := by simpa using hu
            rw [stepItem_url_falsy e m w prompts K false c cnt item d url c cnt
              hembc hfm htr hext hu2] at hstep
            have hinj := Except.ok.inj hstep
            have h_it := congrArg (fun x : Item × Option Emb × Cache × Counts => x.1) hinj
            have h_e := congrArg (fun x : Item × Option Emb × Cache × Counts => x.2.1) hinj
            have h_c := congrArg (fun x : Item × Option Emb × Cache × Counts => x.2.2.1) hinj
            simp only at h_it h_e h_c
            have ht2 : it2.title = item.title := by rw [hct, ← h_it]
            have hmf2 : it2.manifest = item.manifest := by rw [hcm, ← h_it]
            have hembF : cF.emb (slugify it2.title) = Option.none := by
              rw [ht2]
              exact hnone h_e.symm
            have hkey : cF.man (mkey it2.manifest) = some d := by
              rw [hmf2]
              exact hmanF _ _ (h_c ▸ hm)
            have hid2 : it2.id = some (slugify it2.title) := by
              rw [ht2, hci, ← h_it]
            have hurl2 : it2.image_url = some url := by rw [hcu, ← h_it]
            refine ⟨cnt2, ?_⟩
            rw [stepItem_url_falsy e m w prompts K false cF cnt2 it2 d url cF cnt2
              hembF (fetch_manifest_hit w cF cnt2 it2.manifest d hkey) htr hext hu2,
              item_id_url_update_eq hid2 hurl2, h_e]
      · have htr2 : d.truthy = false := by simpa using htr
        rw [stepItem_manifest_falsy e m w prompts K false c cnt item d c cnt
          hembc hfm htr2] at hstep
        have hinj := Except.ok.inj hstep
        have h_it := congrArg (fun x : Item × Option Emb × Cache × Counts => x.1) hinj
        have h_e := congrArg (fun x : Item × Option Emb × Cache × Counts => x.2.1) hinj
        have h_c := congrArg (fun x : Item × Option Emb × Cache × Counts => x.2.2.1) hinj
        simp only at h_it h_e h_c
        have ht2 : it2.title = item.title := by rw [hct, ← h_it]
        have hmf2 : it2.manifest = item.manifest := by rw [hcm, ← h_it]
        have hembF : cF.emb (slugify it2.title) = Option.none := by
          rw [ht2]
          exact hnone h_e.symm
        have hkey : cF.man (mkey it2.manifest) = some d := by
          rw [hmf2]
          exact hmanF _ _ (h_c ▸ hm)
        have hid2 : it2.id = some (slugify it2.title) := by
          rw [ht2, hci, ← h_it]
        have hurl2 : it2.image_url = some (.str "") := by rw [hcu, ← h_it]
        refine ⟨cnt2, ?_⟩
        rw [stepItem_manifest_falsy e m w prompts K false cF cnt2 it2 d cF cnt2
          hembF (fetch_manifest_hit w cF cnt2 it2.manifest d hkey) htr2,
          item_id_url_update_eq hid2 hurl2, h_e]
    · -- run 1 fetched the document over the network and cached it
      by_cases htr : d.truthy = true
      · cases hext : extract_image_url d with
        | error er =>
          rw [stepItem_extract_err e m w prompts K false c cnt item d _ _ er
            hembc hfm htr hext] at hstep
          exact Except.noConfusion hstep
        | ok url =>
          by_cases hu : url.truthy = true
          · cases himg : fetch_image w url with
            | none =>
              rw [stepItem_image_fail e m w prompts K false c cnt item d url _ _
                hembc hfm htr hext hu himg] at hstep
              have hinj := Except.ok.inj hstep
              have h_it := congrArg (fun x : Item × Option Emb × Cache × Counts => x.1) hinj
              have h_e := congrArg (fun x : Item × Option Emb × Cache × Counts => x.2.1) hinj
              have h_c := congrArg (fun x : Item × Option Emb × Cache × Counts => x.2.2.1) hinj
              simp only at h_it h_e h_c
              have ht2 : it2.title = item.title := by rw [hct, ← h_it]
              have hmf2 : it2.manifest = item.manifest := by rw [hcm, ← h_it]
              have hembF : cF.emb (slugify it2.title) = Option.none := by
                rw [ht2]
                exact hnone h_e.symm
              have hkey : cF.man (mkey it2.manifest) = some d := by
                rw [hmf2]
                exact hmanF _ _ (h_c ▸ insertMan_self c (mkey item.manifest) d)
              have hid2 : it2.id = some (slugify it2.title) := by
                rw [ht2, hci, ← h_it]
              have hurl2 : it2.image_url = some url := by rw [hcu, ← h_it]
              refine ⟨{ cnt2 with imageFetches := cnt2.imageFetches + 1 }, ?_⟩
              rw [stepItem_image_fail e m w prompts K false cF cnt2 it2 d url cF cnt2
                hembF (fetch_manifest_hit w cF cnt2 it2.manifest d hkey) htr hext hu himg,
                item_id_url_update_eq hid2 hurl2, h_e]
            | some img =>
              rw [stepItem_success e m w prompts K false c cnt item d url _ _ img
                hembc hfm htr hext hu himg] at hstep
              have hinj := Except.ok.inj hstep
              have h_it := congrArg (fun x : Item × Option Emb × Cache × Counts => x.1) hinj
              have h_e := congrArg (fun x : Item × Option Emb × Cache × Counts => x.2.1) hinj
              simp only at h_it h_e
              have ht2 : it2.title = item.title := by rw [hct, ← h_it]
              have hload2 : cF.emb (slugify it2.title) = some (get_embedding m img) := by
                rw [ht2]
                exact hsome _ h_e.symm
              have htags2 : it2.visual_tags ≠ Option.none := by
                rw [hcv, ← h_it]
                simp
              have hid2 : it2.id = some (slugify it2.title) := by
                rw [ht2, hci, ← h_it]
              refine ⟨cnt2, ?_⟩
              rw [stepItem_cached_skip e m w prompts K cF cnt2 it2 _ hload2 htags2,
                item_id_update_eq hid2, h_e]
          · have hu2 : url.truthy = false := by simpa using hu
            rw [stepItem_url_falsy e m w prompts K false c cnt item d url _ _
              hembc hfm htr hext hu2] at hstep
            have hinj := Except.ok.inj hstep
            have h_it := congrArg (fun x : Item × Option Emb × Cache × Counts => x.1) hinj
            have h_e := congrArg (fun x : Item × Option Emb × Cache × Counts => x.2.1) hinj
            have h_c := congrArg (fun x : Item × Option Emb × Cache × Counts => x.2.2.1) hinj
            simp only at h_it h_e h_c
            have ht2 : it2.title = item.title := by rw [hct, ← h_it]
            have hmf2 : it2.manifest = item.manifest := by rw [hcm, ← h_it]
            have hembF : cF.emb (slugify it2.title) = Option.none := by
              rw [ht2]
              exact hnone h_e.symm
            have hkey : cF.man (mkey it2.manifest) = some d := by
              rw [hmf2]
              exact hmanF _ _ (h_c ▸ insertMan_self c (mkey item.manifest) d)
            have hid2 : it2.id = some (slugify it2.title) := by
              rw [ht2, hci, ← h_it]
            have hurl2 : it2.image_url = some url := by rw [hcu, ← h_it]
            refine ⟨cnt2, ?_⟩
            rw [stepItem_url_falsy e m w prompts K false cF cnt2 it2 d url cF cnt2
              hembF (fetch_manifest_hit w cF cnt2 it2.manifest d hkey) htr hext hu2,
              item_id_url_update_eq hid2 hurl2, h_e]
      · have htr2 : d.truthy = false := by simpa using htr
        rw [stepItem_manifest_falsy e m w prompts K false c cnt item d _ _
          hembc hfm htr2] at hstep
        have hinj := Except.ok.inj hstep
        have h_it := congrArg (fun x : Item × Option Emb × Cache × Counts => x.1) hinj
        have h_e := congrArg (fun x : Item × Option Emb × Cache × Counts => x.2.1) hinj
        have h_c := congrArg (fun x : Item × Option Emb × Cache × Counts => x.2.2.1) hinj
        simp only at h_it h_e h_c
        have ht2 : it2.title = item.title := by rw [hct, ← h_it]
        have hmf2 : it2.manifest = item.manifest := by rw [hcm, ← h_it]
        have hembF : cF.emb (slugify it2.title) = Option.none := by
          rw [ht2]
          exact hnone h_e.symm
        have hkey : cF.man (mkey it2.manifest) = some d := by
          rw [hmf2]
          exact hmanF _ _ (h_c ▸ insertMan_self c (mkey item.manifest) d)
        have hid2 : it2.id = some (slugify it2.title) := by
          rw [ht2, hci, ← h_it]
        have hurl2 : it2.image_url = some (.str "") := by rw [hcu, ← h_it]
        refine ⟨cnt2, ?_⟩
        rw [stepItem_manifest_falsy e m w prompts K false cF cnt2 it2 d cF cnt2
          hembF (fetch_manifest_hit w cF cnt2 it2.manifest d hkey) htr2,
          item_id_url_update_eq hid2 hurl2, h_e]
    · -- run 1 failed to fetch the manifest; run 2 fails identically
      rw [stepItem_manifest_fail e m w prompts K false c cnt item c _
        hembc hfm] at hstep
      have hinj := Except.ok.inj hstep
      have h_it := congrArg (fun x : Item × Option Emb × Cache × Counts => x.1) hinj
      have h_e := congrArg (fun x : Item × Option Emb × Cache × Counts => x.2.1) hinj
      have h_c := congrArg (fun x : Item × Option Emb × Cache × Counts => x.2.2.1) hinj
      simp only at h_it h_e h_c
      have ht2 : it2.title = item.title := by rw [hct, ← h_it]
      have hmf2 : it2.manifest = item.manifest := by rw [hcm, ← h_it]
      have hembF : cF.emb (slugify it2.title) = Option.none := by
        rw [ht2]
        exact hnone h_e.symm
      have hkey : cF.man (mkey it2.manifest) = Option.none := by
        rw [hmf2]
        exact hmanN (h_c ▸ hm) hr
      have hresp2 : w.manifestResp it2.manifest = Option.none := by
        rw [hmf2]
        exact hr
      have hid2 : it2.id = some (slugify it2.title) := by
        rw [ht2, hci, ← h_it]
      have hurl2 : it2.image_url = some (.str "") := by rw [hcu, ← h_it]
      refine ⟨{ cnt2 with manifestFetches := cnt2.manifestFetches + 1 }, ?_⟩
      rw [stepItem_manifest_fail e m w prompts K false cF cnt2 it2 cF _
        hembF (fetch_manifest_missfail w cF cnt2 it2.manifest hkey hresp2),
        item_id_url_update_eq hid2 hurl2, h_e]

theorem phase1_replay {Img : Type} (e : ℚ → ℚ) (m : CLIP Img) (w : World Img)
    (prompts : List (String × String)) (K : ℕ) :
    ∀ (items : List Item) (c : Cache) (cnt : Counts)
      (its : List Item) (es : List (Option Emb)) (c1 : Cache) (cnt1 : Counts)
      (its2 : List Item) (cnt2 : Counts),
      phase1_fetch_and_tag e m w prompts K false items c cnt = .ok (its, es, c1, cnt1) →
      items.Pairwise (fun a b => slugify a.title ≠ slugify b.title) →
      (∀ a ∈ items, ∀ b ∈ items,
        mkey a.manifest = mkey b.manifest → a.manifest = b.manifest) →
      List.Forall₂ sameCore its2 its →
      ∃ cntX, phase1_fetch_and_tag e m w prompts K false its2 c1 cnt2
        = .ok (its2, es, c1, cntX)
  | [], c, cnt, its, es, c1, cnt1, its2, cnt2, h, _, _, hcore => by
    have hinj := Except.ok.inj h
    have h_its := congrArg
      (fun x : List Item × List (Option Emb) × Cache × Counts => x.1) hinj
    have h_es := congrArg
      (fun x : List Item × List (Option Emb) × Cache × Counts => x.2.1) hinj
    have h_c := congrArg
      (fun x : List Item × List (Option Emb) × Cache × Counts => x.2.2.1) hinj
    simp only at h_its h_es h_c
    subst h_its
    subst h_es
    subst h_c
    cases hcore
    exact ⟨cnt2, rfl⟩
  | item :: rest, c, cnt, its, es, c1, cnt1, its2, cnt2, h, hslug, hinjm, hcore => by
    unfold phase1_fetch_and_tag at h
    cases hstep : stepItem e m w prompts K false c cnt item with
    | error er =>
      rw [hstep] at h
      exact Except.noConfusion h
    | ok r =>
      rcases r with ⟨it1, e1, cm, cntm⟩
      rw [hstep] at h
      dsimp only at h
      cases hrest : phase1_fetch_and_tag e m w prompts K false rest cm cntm with
      | error er =>
        rw [hrest] at h
        exact Except.noConfusion h
      | ok r2 =>
        rcases r2 with ⟨its_r, es_r, c3, cnt3⟩
        rw [hrest] at h
        dsimp only at h
        have hinj := Except.ok.inj h
        have h_its := congrArg
          (fun x : List Item × List (Option Emb) × Cache × Counts => x.1) hinj
        have h_es := congrArg
          (fun x : List Item × List (Option Emb) × Cache × Counts => x.2.1) hinj
        have h_c := congrArg
          (fun x : List Item × List (Option Emb) × Cache × Counts => x.2.2.1) hinj
        simp only at h_its h_es h_c
        subst h_c
        rw [← h_its] at hcore
        cases hcore with
        | cons hc12 hrest2 =>
          rename_i it2 its2r
          obtain ⟨_, _, _, _, _, _, hes, hen⟩ := stepItem_core hstep
          obtain ⟨rm1, rm2, rd1, rd2⟩ :=
            phase1_core e m w prompts K false rest cm cntm its_r es_r c3 cnt3 hrest
          have hsome : ∀ v, e1 = some v → c3.emb (slugify item.title) = some v :=
            fun v hv => rm1 _ _ (hes v hv)
          have hnone : e1 = Option.none → c3.emb (slugify item.title) = Option.none := by
            intro hv
            by_cases hk : c3.emb (slugify item.title) = cm.emb (slugify item.title)
            · rw [hk]
              exact hen hv
            · obtain ⟨it3, hmem3, hsl3⟩ := rd1 _ hk
              exact absurd hsl3 (List.rel_of_pairwise_cons hslug hmem3)
          have hmanF : ∀ k d, cm.man k = some d → c3.man k = some d :=
            fun k d hd => rm2 k d hd
          have hmanN : cm.man (mkey item.manifest) = Option.none →
              w.manifestResp item.manifest = Option.none →
              c3.man (mkey item.manifest) = Option.none := by
            intro hm0 hr0
            by_cases hk : c3.man (mkey item.manifest) = cm.man (mkey item.manifest)
            · rw [hk]
              exact hm0
            · obtain ⟨it3, hmem3, hkeq, d2, hresp2⟩ := rd2 _ hk
              have hmeq := hinjm item (List.mem_cons_self _ _) it3
                (List.mem_cons_of_mem _ hmem3) hkeq
              rw [← hmeq] at hresp2
              rw [hresp2] at hr0
              exact Option.noConfusion hr0
          obtain ⟨cntX1, hstep2⟩ := stepItem_replay e m w prompts K c c3 cnt cntm cnt2
            item it1 it2 e1 cm hstep hc12 hsome hnone hmanF hmanN
          obtain ⟨cntX2, hrest2f⟩ := phase1_replay e m w prompts K rest cm cntm
            its_r es_r c3 cnt3 its2r cntX1 hrest (List.Pairwise.of_cons hslug)
            (fun a ha b hb => hinjm a (List.mem_cons_of_mem _ ha)
              b (List.mem_cons_of_mem _ hb)) hrest2
          refine ⟨cntX2, ?_⟩
          unfold phase1_fetch_and_tag
          rw [hstep2]
          dsimp only
          rw [hrest2f]
          dsimp only
          rw [← h_es]

theorem assignSim_idem (n : ℕ) (ids : List String) (valid : List (ℕ × Emb))
    (i : ℕ) (item : Item) :
    assignSim n ids valid i (assignSim n ids valid i item)
      = assignSim n ids valid i item := by
  unfold assignSim
  cases valid.find? (fun q => q.1 == i) with
  | none => rfl
  | some q => rfl

theorem assignAll_idem (n : ℕ) (ids : List String) (valid : List (ℕ × Emb)) :
    ∀ (items : List Item) (k : ℕ),
      assignAll n ids valid k (assignAll n ids valid k items)
        = assignAll n ids valid k items
  | [], _ => rfl
  | item :: rest, k => by
    show assignSim n ids valid k (assignSim n ids valid k item)
        :: assignAll n ids valid (k + 1) (assignAll n ids valid (k + 1) rest)
      = assignSim n ids valid k item :: assignAll n ids valid (k + 1) rest
    rw [assignSim_idem, assignAll_idem n ids valid rest (k + 1)]

theorem phase2_idem (n : ℕ) (items : List Item) (es : List (Option Emb))
    (ids : List String) :
    phase2_assign_similar n (phase2_assign_similar n items es ids) es ids
      = phase2_assign_similar n items es ids := by
  unfold phase2_assign_similar
  by_cases hv : (validPairs 0 es).length < 2
  · simp only [if_pos hv]
  · simp only [if_neg hv]
    exact assignAll_idem n ids _ items 0

theorem sameCore_map_ids : ∀ {l1 l2 : List Item}, List.Forall₂ sameCore l1 l2 →
    l1.map (fun it => it.id.getD "") = l2.map (fun it => it.id.getD "") := by
  intro l1 l2 h
  induction h with
  | nil => rfl
  | cons hab _ ih =>
    simp only [List.map_cons, ih]
    rw [hab.2.2.1]

/-- Claim C3 (amended) — idempotence under restart, for catalogs without
cache-key collisions: when item slugs are pairwise distinct and manifest
cache keys identify manifest URIs, a second run consuming the first run's
output artifact and cache (with the force flag unset and identical
collaborator responses) reproduces the identical artifact and leaves the
cache untouched; every item that holds a cached embedding is skipped,
while items that failed are merely re-attempted with identical results.
With colliding slugs the artifact can change, and failed items always
re-fetch, so the unamended claim fails (see the counterexample). -/
theorem c3_idempotence_amended {Img : Type} (e : ℚ → ℚ) (m : CLIP Img)
    (w : World Img) (prompts : List (String × String)) (K N : ℕ)
    (items : List Item) (c : Cache) (cnt cnt2 : Counts)
    (out1 : List Item) (c1 : Cache) (cnt1 : Counts)
    (hslug : items.Pairwise (fun a b => slugify a.title ≠ slugify b.title))
    (hinjm : ∀ a ∈ items, ∀ b ∈ items,
      mkey a.manifest = mkey b.manifest → a.manifest = b.manifest)
    (hrun1 : pipeline e m w prompts K N false items c cnt = .ok (out1, c1, cnt1)) :
    ∃ cntX, pipeline e m w prompts K N false out1 c1 cnt2 = .ok (out1, c1, cntX) := by
  unfold pipeline at hrun1 ⊢
  cases h1 : phase1_fetch_and_tag e m w prompts K false items c cnt with
  | error er =>
    rw [h1] at hrun1
    exact Except.noConfusion hrun1
  | ok r =>
    rcases r with ⟨its, es, cA, cntA⟩
    rw [h1] at hrun1
    dsimp only at hrun1
    have hinj := Except.ok.inj hrun1
    have h_out := congrArg (fun x : List Item × Cache × Counts => x.1) hinj
    have h_c := congrArg (fun x : List Item × Cache × Counts => x.2.1) hinj
    simp only at h_out h_c
    subst h_c
    have hcore2 : List.Forall₂ sameCore out1 its := by
      rw [← h_out]
      exact phase2_sameCore N its es (its.map (fun it => it.id.getD ""))
    obtain ⟨cntX1, h2⟩ := phase1_replay e m w prompts K items c cnt its es cA cntA
      out1 cnt2 h1 hslug hinjm hcore2
    rw [h2]
    dsimp only
    refine ⟨cntX1, ?_⟩
    have hids : out1.map (fun it => it.id.getD "")
        = its.map (fun it => it.id.getD "") := sameCore_map_ids hcore2
    rw [hids, ← h_out, phase2_idem]

/-- Claim C3 (counterexample): two concrete runs refute the claim as
stated.  First, with two items whose titles both slugify to "t" (a slug
collision) and a failing first manifest, the second run's artifact
differs from the first run's: item 0 gains visual_tags (from the cache
entry written by item 1) and both items gain similar_items.  Second, even
for a single-item catalog whose manifest fetch fails, the second run is
not a skipped-cached transition: it performs another manifest fetch. -/
theorem c3_cex :
    ((pipeline (fun _ => (1 : ℚ)) (⟨fun _ => [], fun _ => [], 1⟩ : CLIP ℕ)
        ⟨fun u => if u = "mB"
            then some (.dict [("thumbnail", .dict [("@id", .str "i")])])
            else Option.none,
          fun _ => some 0⟩
        [("lab", "pr")] 4 3 false
        [⟨"t", "mA", Option.none, Option.none, Option.none, Option.none⟩,
         ⟨"t", "mB", Option.none, Option.none, Option.none, Option.none⟩]
        ⟨fun _ => Option.none, fun _ => Option.none⟩ ⟨0, 0⟩).toOption.map
      (fun r => r.1.map (fun it => it.visual_tags)))
      = some [Option.none, some ["lab"]] ∧
    ((pipeline (fun _ => (1 : ℚ)) (⟨fun _ => [], fun _ => [], 1⟩ : CLIP ℕ)
        ⟨fun u => if u = "mB"
            then some (.dict [("thumbnail", .dict [("@id", .str "i")])])
            else Option.none,
          fun _ => some 0⟩
        [("lab", "pr")] 4 3 false
        [⟨"t", "mA", Option.none, Option.none, Option.none, Option.none⟩,
         ⟨"t", "mB", Option.none, Option.none, Option.none, Option.none⟩]
        ⟨fun _ => Option.none, fun _ => Option.none⟩ ⟨0, 0⟩).toOption.bind
      (fun r => (pipeline (fun _ => (1 : ℚ)) (⟨fun _ => [], fun _ => [], 1⟩ : CLIP ℕ)
        ⟨fun u => if u = "mB"
            then some (.dict [("thumbnail", .dict [("@id", .str "i")])])
            else Option.none,
          fun _ => some 0⟩
        [("lab", "pr")] 4 3 false r.1 r.2.1 ⟨0, 0⟩).toOption.map
        (fun r2 => r2.1.map (fun it => it.visual_tags))))
      = some [some ["lab"], some ["lab"]] ∧
    ((pipeline (fun _ => (1 : ℚ)) (⟨fun _ => [], fun _ => [], 1⟩ : CLIP ℕ)
        ⟨fun _ => Option.none, fun _ => Option.none⟩
        [("lab", "pr")] 4 3 false
        [⟨"c", "mA", Option.none, Option.none, Option.none, Option.none⟩]
        ⟨fun _ => Option.none, fun _ => Option.none⟩ ⟨0, 0⟩).toOption.bind
      (fun r => (pipeline (fun _ => (1 : ℚ)) (⟨fun _ => [], fun _ => [], 1⟩ : CLIP ℕ)
        ⟨fun _ => Option.none, fun _ => Option.none⟩
        [("lab", "pr")] 4 3 false r.1 r.2.1 ⟨0, 0⟩).toOption.map
        (fun r2 => r2.2.2.manifestFetches)))
      = some 1 := ⟨rfl, rfl, rfl⟩

theorem c3_witness :
    ∃ out1 c1 cnt1,
      pipeline (fun _ => (1 : ℚ)) (⟨fun _ => [], fun _ => [], 1⟩ : CLIP ℕ)
        ⟨fun _ => some (.dict [("thumbnail", .dict [("@id", .str "i")])]),
         fun _ => some 0⟩
        [("lab", "pr")] 4 3 false
        [⟨"t", "mB", Option.none, Option.none, Option.none, Option.none⟩]
        ⟨fun _ => Option.none, fun _ => Option.none⟩ ⟨0, 0⟩ = .ok (out1, c1, cnt1) ∧
      ∃ cntX,
        pipeline (fun _ => (1 : ℚ)) (⟨fun _ => [], fun _ => [], 1⟩ : CLIP ℕ)
          ⟨fun _ => some (.dict [("thumbnail", .dict [("@id", .str "i")])]),
           fun _ => some 0⟩
          [("lab", "pr")] 4 3 false out1 c1 ⟨0, 0⟩ = .ok (out1, c1, cntX) := by
  refine ⟨_, _, _, rfl, ?_⟩
  exact c3_idempotence_amended (fun _ => (1 : ℚ)) (⟨fun _ => [], fun _ => [], 1⟩ : CLIP ℕ)
    ⟨fun _ => some (.dict [("thumbnail", .dict [("@id", .str "i")])]), fun _ => some 0⟩
    [("lab", "pr")] 4 3
    [⟨"t", "mB", Option.none, Option.none, Option.none, Option.none⟩]
    ⟨fun _ => Option.none, fun _ => Option.none⟩ ⟨0, 0⟩ ⟨0, 0⟩ _ _ _
    (by simp)
    (by intro a ha b hb h2; fin_cases ha <;> fin_cases hb <;> rfl)
    rfl
